import Mathlib

/-!
Shallow embedding of `football_commentator.py` (PersonalizedCommentator).

The embedding models:
* `level_reminder` / `questions` — the prompt construction in `create_agent`;
* `AudioStreamer` / `stream_to_gemini` — the audio feeder loop, as a pure
  trace-producing function over an abstract media source (packets of decoded
  frames), an abstract resampler, a stop-flag schedule, a sink-reachability
  schedule and a decode-fault schedule;
* `run_commentary` — the periodic commentary loop, as a timed trace;
* `on_track_added` — the idempotent task-starting handler;
* an Event-Triggered commentary strategy modelled from the spec (the code for
  it is not part of the sources at hand).
-/

namespace FootballCommentator

/-! ## Prompt construction (`create_agent`, lines 127–149) -/

/-- The level reminder dictionary lookup with default `""`
(`{...}.get(level, "")` in `create_agent`). -/
def level_reminder (level : String) : String :=
  if level = "beginner" then "Explain terms simply."
  else if level = "intermediate" then "Explain tactics."
  else if level = "expert" then "Use jargon freely."
  else ""

/-- The regular-commentary prompt list built in `create_agent`: two templates
per style category, each with the level reminder appended. -/
def questions (style level : String) : List String :=
  let r := level_reminder level
  if style = "roasting" then
    ["What\x27s happening? Roast it. 1-2 sentences. " ++ r,
     "Comment on that play with roasts. 1-2 sentences. " ++ r]
  else
    ["What\x27s happening? 1-2 sentences. " ++ r,
     "Comment on that play. 1-2 sentences. " ++ r]

/-- The opening prompt built in `create_agent`. -/
def opening_prompt (team1 team2 : String) : String :=
  "Welcome to " ++ team1 ++ " vs " ++ team2 ++ "! Quick intro in 1-2 sentences."

/-- The bare prompt templates of `create_agent`, without the level reminder. -/
def questionTemplates (style : String) : List String :=
  if style = "roasting" then
    ["What\x27s happening? Roast it. 1-2 sentences. ",
     "Comment on that play with roasts. 1-2 sentences. "]
  else
    ["What\x27s happening? 1-2 sentences. ",
     "Comment on that play. 1-2 sentences. "]

/-! ## Audio feeder model (`AudioStreamer.stream_to_gemini`, lines 54–105)

A decoded audio frame is a list of samples (`List Int`); a packet decodes to a
list of frames; the media source's audio track is a list of packets.  The
resampler is an abstract conversion `List Int → List (List Int)` (one input
frame may yield several resampled frames, each flattened to one chunk of
samples).  The stop flag is modelled as a schedule `stop : Nat → Bool` read at
each check site (the `while` condition, the per-packet check and the per-frame
check), indexed by a global check counter; sink reachability
(`agent.llm and agent.llm.connected`) is a schedule over a global send-attempt
counter; decode faults are a schedule over a global packet counter. -/

/-- One observable action of the feeder. -/
inductive FAct where
  | chunk (samples : List Int)
  | dropped (samples : List Int)
  | yieldSleep
  | seek0
  | backoff
  | errlog
  | check (b : Bool)
  | close
  deriving DecidableEq, Repr

/-- Emit the resampled segments of one frame: for each segment, the sink
reachability is checked at the current send counter; the chunk is sent if
reachable and silently dropped otherwise. -/
def emitSegs (reach : Nat → Bool) : Nat → List (List Int) → List FAct × Nat
  | sc, [] => ([], sc)
  | sc, seg :: rest =>
    let a := if reach sc then FAct.chunk seg else FAct.dropped seg
    let (acts, sc') := emitSegs reach (sc + 1) rest
    (a :: acts, sc')

/-- Process the frames of one packet (`for frame in packet.decode()`): the stop
flag is checked before each frame; if set, the frame loop breaks.  Returns the
trace, and the updated check and send counters. -/
def procFrames (stop reach : Nat → Bool) (resample : List Int → List (List Int)) :
    Nat → Nat → List (List Int) → List FAct × Nat × Nat
  | cc, sc, [] => ([], cc, sc)
  | cc, sc, f :: fs =>
    if stop cc then ([FAct.check true], cc + 1, sc)
    else
      let (segActs, sc') := emitSegs reach sc (resample f)
      let (rest, cc', sc'') := procFrames stop reach resample (cc + 1) sc' fs
      (FAct.check false :: segActs ++ rest, cc', sc'')

/-- Process the packets of one demux pass (`for packet in container.demux`):
the stop flag is checked before each packet; a decode fault at the current
packet counter raises, aborting the pass with the not-yet-consumed packets
returned (`some rest`); `none` means the pass ended normally or by a stop
break.  Returns trace, check counter, send counter, packet counter, and the
fault outcome. -/
def procPackets (stop reach faults : Nat → Bool) (resample : List Int → List (List Int)) :
    Nat → Nat → Nat → List (List (List Int)) →
    List FAct × Nat × Nat × Nat × Option (List (List (List Int)))
  | cc, sc, pc, [] => ([], cc, sc, pc, none)
  | cc, sc, pc, p :: rest =>
    if stop cc then ([FAct.check true], cc + 1, sc, pc, none)
    else if faults pc then ([FAct.check false], cc + 1, sc, pc + 1, some rest)
    else
      let (ftr, cc', sc') := procFrames stop reach resample (cc + 1) sc p
      let (rtr, cc'', sc'', pc', out) :=
        procPackets stop reach faults resample cc' sc' (pc + 1) rest
      (FAct.check false :: ftr ++ [FAct.yieldSleep] ++ rtr, cc'', sc'', pc', out)

/-- The outer `while not self._stopped` loop, fuel-bounded.  A pass ending
normally (or by stop break) falls through to `container.seek(0)` and the loop
re-checks the flag; a faulted pass is caught (`except Exception`), logged, a
fixed backoff is observed, and the loop resumes with the remaining packets
(the container position is wherever the fault left it). -/
def feederLoop (stop reach faults : Nat → Bool) (resample : List Int → List (List Int))
    (src : List (List (List Int))) :
    Nat → Nat → Nat → Nat → List (List (List Int)) → List FAct
  | 0, _, _, _, _ => []
  | fuel + 1, cc, sc, pc, cur =>
    if stop cc then [FAct.check true]
    else
      match procPackets stop reach faults resample (cc + 1) sc pc cur with
      | (tr, cc', sc', pc', none) =>
        FAct.check false :: tr ++ [FAct.seek0] ++
          feederLoop stop reach faults resample src fuel cc' sc' pc' src
      | (tr, cc', sc', pc', some rest) =>
        FAct.check false :: tr ++ [FAct.errlog, FAct.backoff] ++
          feederLoop stop reach faults resample src fuel cc' sc' pc' rest

/-- `AudioStreamer.stream_to_gemini` as a trace: if the container has no audio
stream, it is closed and the call returns at once; otherwise the feeder loop
runs inside `try ... finally container.close()`. -/
def stream_to_gemini (hasAudio : Bool) (src : List (List (List Int)))
    (resample : List Int → List (List Int)) (stop reach faults : Nat → Bool)
    (fuel : Nat) : List FAct :=
  if hasAudio then
    feederLoop stop reach faults resample src fuel 0 0 0 src ++ [FAct.close]
  else
    [FAct.close]

/-- The `AudioStreamer` object state: a path and the `_stopped` flag. -/
structure AudioStreamer where
  path : String
  stopped : Bool
  deriving DecidableEq, Repr

/-- `AudioStreamer.__init__`: the flag starts `False`. -/
def AudioStreamer.mk0 (path : String) : AudioStreamer :=
  { path := path, stopped := false }

/-- `AudioStreamer.stop`: the only mutator; it sets the flag to `True`. -/
def AudioStreamer.stop (s : AudioStreamer) : AudioStreamer :=
  { s with stopped := true }

/-- The only state-mutating operation exposed by `AudioStreamer`. -/
inductive StreamerOp where
  | stopOp
  deriving DecidableEq, Repr

/-- Apply a sequence of `AudioStreamer` operations. -/
def applyOps : List StreamerOp → AudioStreamer → AudioStreamer
  | [], s => s
  | StreamerOp.stopOp :: rest, s => applyOps rest s.stop

/-! ## Trace observations -/

/-- The chunks actually sent to the sink, in order. -/
def chunksOf (tr : List FAct) : List (List Int) :=
  tr.filterMap fun a => match a with
    | FAct.chunk s => some s
    | _ => none

/-- All send attempts in order: `(true, s)` for a sent chunk, `(false, s)` for
a chunk dropped because the sink was unreachable. -/
def attemptsOf (tr : List FAct) : List (Bool × List Int) :=
  tr.filterMap fun a => match a with
    | FAct.chunk s => some (true, s)
    | FAct.dropped s => some (false, s)
    | _ => none

/-- The expected send attempts for a segment list starting at send counter
`sc`: segment `i` is tagged with the reachability at counter `sc + i`. -/
def tagReach (reach : Nat → Bool) : Nat → List (List Int) → List (Bool × List Int)
  | _, [] => []
  | sc, seg :: rest => (reach sc, seg) :: tagReach reach (sc + 1) rest

/-- The resampled segments of one packet, in decode order. -/
def packetSegs (resample : List Int → List (List Int)) (p : List (List Int)) :
    List (List Int) :=
  p.flatMap resample

/-- The resampled segments of one full demux pass over the source. -/
def passSegs (resample : List Int → List (List Int)) (src : List (List (List Int))) :
    List (List Int) :=
  src.flatMap (packetSegs resample)

/-- Is an action a send attempt (chunk or dropped)? -/
def isEmit : FAct → Bool
  | FAct.chunk _ => true
  | FAct.dropped _ => true
  | _ => false

/-- No send attempt appears in the trace. -/
def noEmit (tr : List FAct) : Bool :=
  tr.all fun a => !isEmit a

/-- After the first check that observes the stop flag set, no send attempt
appears in the trace. -/
def stopClean : List FAct → Bool
  | [] => true
  | x :: rest => if x = FAct.check true then noEmit rest else stopClean rest

/-! ## Periodic commentary model (`run_commentary`, lines 157–172)

Delivery outcomes are an oracle `fail : Nat → Bool` over a global call counter
(call `0` is the opening prompt, call `k + 1` is loop iteration `k`); the
`random.choice` is an oracle `choice : Nat → Nat` over loop iterations.
Cancellation is modelled as a `CancelledError` raised at the awaits of a given
loop iteration (`cancelAt`); it is caught by the loop's
`except asyncio.CancelledError: break`.  Time is accumulated from the sleep
durations (3 s startup, 5 s settle, 4 s interval, 2 s fault backoff), with
deliveries timestamped. -/

/-- One observable action of the commentary task. -/
inductive PAct where
  | sleepP (d : Nat)
  | opening (t : Nat) (s : String)
  | deliver (t : Nat) (s : String)
  | fault (t : Nat) (s : String)
  | errlogP
  | cancelledP
  deriving DecidableEq, Repr

/-- Result of running the commentary task: its trace, and whether the task
terminated with an uncaught exception. -/
structure CommResult where
  trace : List PAct
  raised : Bool
  deriving DecidableEq, Repr

/-- The prompt attempted at loop iteration `k` (`random.choice(questions)`). -/
def chosenPrompt (choice : Nat → Nat) (qs : List String) (k : Nat) : String :=
  qs.getD (choice k % qs.length) ""

/-- The `while True` loop of `run_commentary`, fuel-bounded: each iteration
attempts one randomly chosen prompt; a delivery fault is logged and followed by
a 2 s backoff before the next tick; cancellation breaks out cleanly. -/
def commLoop (fail : Nat → Bool) (choice : Nat → Nat) (qs : List String)
    (cancelAt : Option Nat) : Nat → Nat → Nat → List PAct
  | _, _, 0 => []
  | t, k, fuel + 1 =>
    if cancelAt = some k then [PAct.cancelledP]
    else if fail (k + 1) then
      PAct.fault t (chosenPrompt choice qs k) :: PAct.errlogP :: PAct.sleepP 2 ::
        commLoop fail choice qs cancelAt (t + 2) (k + 1) fuel
    else
      PAct.deliver t (chosenPrompt choice qs k) :: PAct.sleepP 4 ::
        commLoop fail choice qs cancelAt (t + 4) (k + 1) fuel

/-- `run_commentary`: sleep 3 s, deliver the opening prompt (call `0`, outside
any `try`, so a fault there propagates and terminates the task), sleep 5 s,
then run the loop. -/
def run_commentary (fail : Nat → Bool) (choice : Nat → Nat) (qs : List String)
    (op : String) (cancelAt : Option Nat) (fuel : Nat) : CommResult :=
  if fail 0 then
    { trace := [PAct.sleepP 3, PAct.fault 3 op], raised := true }
  else
    { trace := PAct.sleepP 3 :: PAct.opening 3 op :: PAct.sleepP 5 ::
        commLoop fail choice qs cancelAt 8 0 fuel,
      raised := false }

/-- Successful loop deliveries (time, prompt), in order. -/
def deliversOf (tr : List PAct) : List (Nat × String) :=
  tr.filterMap fun a => match a with
    | PAct.deliver t s => some (t, s)
    | _ => none

/-- Opening deliveries (time, prompt), in order. -/
def openingsOf (tr : List PAct) : List (Nat × String) :=
  tr.filterMap fun a => match a with
    | PAct.opening t s => some (t, s)
    | _ => none

/-- All prompt attempts of the loop (delivered or faulted), in order. -/
def loopAttemptsOf (tr : List PAct) : List String :=
  tr.filterMap fun a => match a with
    | PAct.deliver _ s => some s
    | PAct.fault _ s => some s
    | _ => none

/-- The timestamps of all delivered prompts (opening and regular), in order. -/
def promptTimesOf (tr : List PAct) : List Nat :=
  tr.filterMap fun a => match a with
    | PAct.opening t _ => some t
    | PAct.deliver t _ => some t
    | _ => none

/-! ## Orchestrator model (`on_track_added`, lines 174–191)

The closure state is the pair of task handles (`video_task`,
`commentary_task`), modelled as `Option Nat` with fresh task identifiers drawn
from a counter, so that "handle unchanged" is observable. -/

/-- The closure-captured task handles of `create_agent`. -/
structure AgentTasks where
  commentary_task : Option Nat
  video_task : Option Nat
  deriving DecidableEq, Repr

/-- Initial closure state: both handles `None`. -/
def initTasks : AgentTasks :=
  { commentary_task := none, video_task := none }

/-- The `on_track_added` handler: a non-video signal (`track_type != 2`)
returns at once; otherwise the streaming task is created if a streamer was
configured and none is running, and the commentary task is created if none is
running.  Returns the new state and the next fresh task id. -/
def on_track_added (hasStreamer : Bool) (tt : Nat) (s : AgentTasks × Nat) :
    AgentTasks × Nat :=
  if tt ≠ 2 then s
  else
    let s1 :=
      if hasStreamer ∧ s.1.video_task = none then
        ({ s.1 with video_task := some s.2 }, s.2 + 1)
      else s
    if s1.1.commentary_task = none then
      ({ s1.1 with commentary_task := some s1.2 }, s1.2 + 1)
    else s1

/-- Deliver a sequence of track signals to the handler. -/
def processEvents (hasStreamer : Bool) (evs : List Nat) (s : AgentTasks × Nat) :
    AgentTasks × Nat :=
  evs.foldl (fun st tt => on_track_added hasStreamer tt st) s

/-! ## Event-Triggered strategy (modelled from the spec) -/

/-- Modelled from the spec: the Debouncer's state — a window duration and the
timestamp of the last granted action (none if never granted).  The code for the
Event-Triggered Strategy is not among the sources at hand; this follows
spec sections 4.1 and 8. -/
structure Debouncer where
  window : Nat
  lastGranted : Option Nat
  deriving DecidableEq, Repr

/-- Modelled from the spec: `tryAcquire` returns `true` and records `now` as
last granted if and only if no prior acquisition happened within the last
`window` time units (at `t0` and `t0 + W` it yields `true` then `false`; at
`t0 + W + 1` it yields `true` again); otherwise it returns `false` and leaves
the state unchanged. -/
def tryAcquire (now : Nat) (d : Debouncer) : Bool × Debouncer :=
  match d.lastGranted with
  | none => (true, { d with lastGranted := some now })
  | some t =>
    if now - t > d.window then (true, { d with lastGranted := some now })
    else (false, d)

/-- Modelled from the spec: the Event-Triggered Strategy's commentary state. -/
inductive CommentaryState where
  | awaitingOpening
  | coolingDown
  | active
  deriving DecidableEq, Repr

/-- Modelled from the spec: the full scheduler state — phase, opening
timestamp, debouncer, and the count of prompts delivered so far. -/
structure ETState where
  phase : CommentaryState
  openedAt : Nat
  deb : Debouncer
  prompts : Nat
  deriving DecidableEq, Repr

/-- Modelled from the spec: initial Event-Triggered scheduler state with
debounce window `W`. -/
def initET (W : Nat) : ETState :=
  { phase := CommentaryState.awaitingOpening, openedAt := 0,
    deb := { window := W, lastGranted := none }, prompts := 0 }

/-- Modelled from the spec: ACTIVE-state handling of one event — if the
qualifying predicate holds and the debouncer grants, deliver one prompt;
otherwise do nothing. -/
def activeHandle (qualifies : Bool) (now : Nat) (s : ETState) : ETState :=
  if qualifies then
    let (g, d') := tryAcquire now s.deb
    if g then { s with deb := d', prompts := s.prompts + 1 }
    else { s with deb := d' }
  else s

/-- Modelled from the spec: the per-event handler of the Event-Triggered
Strategy.  AWAITING_OPENING: the first event delivers the opening and moves to
COOLING_DOWN; COOLING_DOWN: an event within the cooldown `C` is fully ignored,
an event at or past it moves to ACTIVE and falls through to ACTIVE handling of
the same event; ACTIVE is terminal. -/
def handleEvent (C : Nat) (qualifies : Bool) (now : Nat) (s : ETState) : ETState :=
  match s.phase with
  | CommentaryState.awaitingOpening =>
    { s with phase := CommentaryState.coolingDown, openedAt := now,
             prompts := s.prompts + 1 }
  | CommentaryState.coolingDown =>
    if now - s.openedAt < C then s
    else activeHandle qualifies now { s with phase := CommentaryState.active }
  | CommentaryState.active => activeHandle qualifies now s

/-- Modelled from the spec: deliver a sequence of (time, qualifying) detection
events to the Event-Triggered handler. -/
def runEvents (C : Nat) : List (Nat × Bool) → ETState → ETState
  | [], s => s
  | (t, q) :: rest, s => runEvents C rest (handleEvent C q t s)

/-! ## Theorems -/

/-- C10: for every KNOWLEDGE_LEVEL value outside {beginner, intermediate,
expert}, the level reminder is the empty string (not an error), and the regular
prompts are still constructed — they equal the bare templates — and every
prompt the loop would deliver is one of those templates. -/
theorem C10_unknown_level_empty_reminder (level : String)
    (h : level ∉ ["beginner", "intermediate", "expert"]) :
    level_reminder level = "" ∧
    ∀ style : String, questions style level = questionTemplates style ∧
      (questions style level).length = 2 ∧
      ∀ choice : Nat → Nat, ∀ k : Nat,
        chosenPrompt choice (questions style level) k ∈ questionTemplates style := by
  simp only [List.mem_cons, List.not_mem_nil, or_false, not_or] at h
  obtain ⟨h1, h2, h3⟩ := h
  have hrem : level_reminder level = "" := by
    simp [level_reminder, h1, h2, h3]
  refine ⟨hrem, fun style => ?_⟩
  have hq : questions style level = questionTemplates style := by
    simp [questions, questionTemplates, hrem]
  refine ⟨hq, ?_, ?_⟩
  · rw [hq]; by_cases hs : style = "roasting" <;> simp [questionTemplates, hs]
  · intro choice k
    rw [hq]
    by_cases hs : style = "roasting" <;>
      · simp only [questionTemplates, hs, if_true, if_false, chosenPrompt,
          List.length_cons, List.length_nil]
        have hm : choice k % 2 = 0 ∨ choice k % 2 = 1 := by omega
        rcases hm with h | h <;> simp [h, List.getD]

/-- C10 witness: instantiation at the level `"guru"`. -/
theorem C10_unknown_level_empty_reminder_witness :
    "guru" ∉ ["beginner", "intermediate", "expert"] ∧
    (level_reminder "guru" = "" ∧
     ∀ style : String, questions style "guru" = questionTemplates style ∧
       (questions style "guru").length = 2 ∧
       ∀ choice : Nat → Nat, ∀ k : Nat,
         chosenPrompt choice (questions style "guru") k ∈ questionTemplates style) :=
  ⟨by decide, C10_unknown_level_empty_reminder "guru" (by decide)⟩

/-- C2: Event-Triggered Strategy scenario (modelled from the spec, cooldown
`C > 0`, debounce window `W`): events at `t = 0`, `t = C/2`, `t = C+1`,
`t = C+1+W/2`, `t = C+1+W+1`, qualifying from `t = C+1` on, deliver exactly
three prompts — the opening at `t = 0` (AWAITING_OPENING → COOLING_DOWN), the
`t = C/2` event fully ignored during cooldown, a prompt at `t = C+1`
(→ ACTIVE), the `t = C+1+W/2` event denied by the Debouncer, and a prompt at
`t = C+1+W+1`. -/
theorem C2_event_triggered_three_prompts (C W : Nat) (q0 q1 : Bool) (hC : 0 < C) :
    (handleEvent C q0 0 (initET W)).phase = CommentaryState.coolingDown ∧
    (handleEvent C q0 0 (initET W)).prompts = 1 ∧
    handleEvent C q1 (C / 2) (handleEvent C q0 0 (initET W)) =
      handleEvent C q0 0 (initET W) ∧
    (runEvents C [(0, q0), (C / 2, q1), (C + 1, true)] (initET W)).phase =
      CommentaryState.active ∧
    (runEvents C [(0, q0), (C / 2, q1), (C + 1, true)] (initET W)).prompts = 2 ∧
    runEvents C [(0, q0), (C / 2, q1), (C + 1, true), (C + 1 + W / 2, true)]
        (initET W) =
      runEvents C [(0, q0), (C / 2, q1), (C + 1, true)] (initET W) ∧
    (runEvents C
        [(0, q0), (C / 2, q1), (C + 1, true), (C + 1 + W / 2, true),
         (C + 1 + W + 1, true)] (initET W)).prompts = 3 := by
  have e1 : handleEvent C q0 0 (initET W) =
      { phase := CommentaryState.coolingDown, openedAt := 0,
        deb := { window := W, lastGranted := none }, prompts := 1 } := rfl
  have e2 : handleEvent C q1 (C / 2)
      ({ phase := CommentaryState.coolingDown, openedAt := 0,
         deb := { window := W, lastGranted := none }, prompts := 1 } : ETState) =
      { phase := CommentaryState.coolingDown, openedAt := 0,
        deb := { window := W, lastGranted := none }, prompts := 1 } := by
    simp only [handleEvent]
    rw [if_pos (by omega : C / 2 - 0 < C)]
  have e3 : handleEvent C true (C + 1)
      ({ phase := CommentaryState.coolingDown, openedAt := 0,
         deb := { window := W, lastGranted := none }, prompts := 1 } : ETState) =
      { phase := CommentaryState.active, openedAt := 0,
        deb := { window := W, lastGranted := some (C + 1) }, prompts := 2 } := by
    simp only [handleEvent]
    rw [if_neg (by omega : ¬ (C + 1 - 0 < C))]
    simp [activeHandle, tryAcquire]
  have e4 : handleEvent C true (C + 1 + W / 2)
      ({ phase := CommentaryState.active, openedAt := 0,
         deb := { window := W, lastGranted := some (C + 1) }, prompts := 2 } : ETState) =
      { phase := CommentaryState.active, openedAt := 0,
        deb := { window := W, lastGranted := some (C + 1) }, prompts := 2 } := by
    simp only [handleEvent, activeHandle, tryAcquire]
    rw [if_neg (by omega : ¬ (C + 1 + W / 2 - (C + 1) > W))]
    simp
  have e5 : handleEvent C true (C + 1 + W + 1)
      ({ phase := CommentaryState.active, openedAt := 0,
         deb := { window := W, lastGranted := some (C + 1) }, prompts := 2 } : ETState) =
      { phase := CommentaryState.active, openedAt := 0,
        deb := { window := W, lastGranted := some (C + 1 + W + 1) }, prompts := 3 } := by
    simp only [handleEvent, activeHandle, tryAcquire]
    rw [if_pos (by omega : C + 1 + W + 1 - (C + 1) > W)]
    simp
  simp [runEvents, e1, e2, e3, e4, e5]

/-- C2 witness: instantiation at `C = 2`, `W = 2`, both early events
qualifying. -/
theorem C2_event_triggered_three_prompts_witness :
    0 < 2 ∧
    ((handleEvent 2 true 0 (initET 2)).phase = CommentaryState.coolingDown ∧
     (handleEvent 2 true 0 (initET 2)).prompts = 1 ∧
     handleEvent 2 true (2 / 2) (handleEvent 2 true 0 (initET 2)) =
       handleEvent 2 true 0 (initET 2) ∧
     (runEvents 2 [(0, true), (2 / 2, true), (2 + 1, true)] (initET 2)).phase =
       CommentaryState.active ∧
     (runEvents 2 [(0, true), (2 / 2, true), (2 + 1, true)] (initET 2)).prompts = 2 ∧
     runEvents 2 [(0, true), (2 / 2, true), (2 + 1, true), (2 + 1 + 2 / 2, true)]
         (initET 2) =
       runEvents 2 [(0, true), (2 / 2, true), (2 + 1, true)] (initET 2) ∧
     (runEvents 2
         [(0, true), (2 / 2, true), (2 + 1, true), (2 + 1 + 2 / 2, true),
          (2 + 1 + 2 + 1, true)] (initET 2)).prompts = 3) :=
  ⟨by decide, C2_event_triggered_three_prompts 2 2 true true (by decide)⟩

/-- A state fixed by every signal stays fixed under any signal sequence. -/
lemma processEvents_fixed (hasStreamer : Bool) (s : AgentTasks × Nat)
    (h : ∀ tt, on_track_added hasStreamer tt s = s) :
    ∀ evs, processEvents hasStreamer evs s = s := by
  intro evs
  induction evs with
  | nil => rfl
  | cons e rest ih =>
    show processEvents hasStreamer rest (on_track_added hasStreamer e s) = s
    rw [h e]; exact ih

/-- C4: the handler starts at most one streaming task and one commentary task.
Non-video signals are no-ops; the first video signal creates the commentary
task and — exactly when a streamer was configured — the streaming task; every
subsequent signal (video or not) leaves both task handles unchanged. -/
theorem C4_on_track_added_idempotent (hasStreamer : Bool) :
    (∀ tt s, tt ≠ 2 → on_track_added hasStreamer tt s = s) ∧
    (on_track_added hasStreamer 2 (initTasks, 0)).1.commentary_task.isSome = true ∧
    (on_track_added hasStreamer 2 (initTasks, 0)).1.video_task.isSome = hasStreamer ∧
    (∀ evs, processEvents hasStreamer evs (on_track_added hasStreamer 2 (initTasks, 0)) =
      on_track_added hasStreamer 2 (initTasks, 0)) := by
  have hno : ∀ tt s, tt ≠ 2 → on_track_added hasStreamer tt s = s := by
    intro tt s htt
    simp [on_track_added, htt]
  have hfirst : on_track_added hasStreamer 2 (initTasks, 0) =
      if hasStreamer then
        (({ commentary_task := some 1, video_task := some 0 } : AgentTasks), 2)
      else (({ commentary_task := some 0, video_task := none } : AgentTasks), 1) := by
    cases hasStreamer <;> simp [on_track_added, initTasks]
  have hfix : ∀ tt, on_track_added hasStreamer tt
      (on_track_added hasStreamer 2 (initTasks, 0)) =
      on_track_added hasStreamer 2 (initTasks, 0) := by
    intro tt
    by_cases htt : tt = 2
    · subst htt
      rw [hfirst]
      cases hasStreamer <;> simp [on_track_added]
    · exact hno tt _ htt
  refine ⟨hno, ?_, ?_, processEvents_fixed hasStreamer _ hfix⟩
  · rw [hfirst]; cases hasStreamer <;> simp
  · rw [hfirst]; cases hasStreamer <;> simp

/-- C4 witness: with a streamer configured, an audio signal is a no-op, the
first video signal creates both tasks, and a later burst of signals leaves the
handles unchanged. -/
theorem C4_on_track_added_idempotent_witness :
    on_track_added true 1 (initTasks, 0) = (initTasks, 0) ∧
    (on_track_added true 2 (initTasks, 0)).1.commentary_task.isSome = true ∧
    (on_track_added true 2 (initTasks, 0)).1.video_task.isSome = true ∧
    processEvents true [2, 1, 2, 2] (on_track_added true 2 (initTasks, 0)) =
      on_track_added true 2 (initTasks, 0) :=
  ⟨(C4_on_track_added_idempotent true).1 1 (initTasks, 0) (by decide),
   (C4_on_track_added_idempotent true).2.1,
   (C4_on_track_added_idempotent true).2.2.1,
   (C4_on_track_added_idempotent true).2.2.2 [2, 1, 2, 2]⟩

/-- Number of occurrences of one commentary action in a trace. -/
def countAct (a : PAct) (tr : List PAct) : Nat :=
  tr.countP (fun x => x == a)

/-- Splitting a `range`-map at the front. -/
lemma map_range_succ_shift {α : Type} (f : Nat → α) (m : Nat) :
    (List.range (m + 1)).map f = f 0 :: (List.range m).map (fun j => f (j + 1)) := by
  rw [List.range_succ_eq_map]
  simp [Function.comp]

/-- Every loop tick attempts exactly its own randomly chosen prompt, whether
the delivery succeeds or faults. -/
lemma loopAttemptsOf_commLoop (fail : Nat → Bool) (choice : Nat → Nat)
    (qs : List String) :
    ∀ fuel t k, loopAttemptsOf (commLoop fail choice qs none t k fuel) =
      (List.range' k fuel).map (chosenPrompt choice qs) := by
  intro fuel
  induction fuel with
  | zero => intro t k; rfl
  | succ m ih =>
    intro t k
    rw [List.range'_succ, List.map_cons]
    by_cases hf : fail (k + 1) <;>
      · simp only [commLoop, hf, if_true, if_false, reduceCtorEq, if_neg,
          loopAttemptsOf, List.filterMap_cons, ite_false]
        simp only [loopAttemptsOf] at ih
        rw [ih]

/-- The loop's error logs count exactly the faulting ticks. -/
lemma countAct_errlog_commLoop (fail : Nat → Bool) (choice : Nat → Nat)
    (qs : List String) :
    ∀ fuel t k, countAct PAct.errlogP (commLoop fail choice qs none t k fuel) =
      (List.range' (k + 1) fuel).countP fail := by
  intro fuel
  induction fuel with
  | zero => intro t k; rfl
  | succ m ih =>
    intro t k
    rw [List.range'_succ, List.countP_cons]
    by_cases hf : fail (k + 1) <;>
      · simp only [commLoop, hf, if_true, if_false, reduceCtorEq, if_neg,
          countAct, List.countP_cons]
        simp only [countAct] at ih
        rw [ih]
        simp [hf]

/-- The loop's 2 s backoffs count exactly the faulting ticks. -/
lemma countAct_backoff_commLoop (fail : Nat → Bool) (choice : Nat → Nat)
    (qs : List String) :
    ∀ fuel t k, countAct (PAct.sleepP 2) (commLoop fail choice qs none t k fuel) =
      (List.range' (k + 1) fuel).countP fail := by
  intro fuel
  induction fuel with
  | zero => intro t k; rfl
  | succ m ih =>
    intro t k
    rw [List.range'_succ, List.countP_cons]
    by_cases hf : fail (k + 1) <;>
      · simp only [commLoop, hf, if_true, if_false, reduceCtorEq, if_neg,
          countAct, List.countP_cons]
        simp only [countAct] at ih
        rw [ih]
        simp [hf]

/-- With no delivery faults and no cancellation, the loop delivers one chosen
prompt per tick, at times `t, t + 4, t + 8, …`. -/
lemma deliversOf_commLoop_nofault (choice : Nat → Nat) (qs : List String) :
    ∀ fuel t k, deliversOf (commLoop (fun _ => false) choice qs none t k fuel) =
      List.zip (List.range' t fuel 4) ((List.range' k fuel).map (chosenPrompt choice qs)) := by
  intro fuel
  induction fuel with
  | zero => intro t k; rfl
  | succ m ih =>
    intro t k
    rw [List.range'_succ, List.range'_succ, List.map_cons, List.zip_cons_cons]
    simp only [commLoop, if_false, reduceCtorEq, if_neg, deliversOf,
      List.filterMap_cons]
    simp only [deliversOf] at ih
    rw [ih]

/-- The two trace actions of one successful loop tick. -/
def deliverTick (p : Nat × String) : List PAct :=
  [PAct.deliver p.1 p.2, PAct.sleepP 4]

/-- With cancellation at tick `j + m` (within fuel), the loop delivers the
prompts of ticks `j, …, j + m - 1` and then exits cleanly. -/
lemma commLoop_cancel (choice : Nat → Nat) (qs : List String) :
    ∀ m fuel t j, m < fuel →
      commLoop (fun _ => false) choice qs (some (j + m)) t j fuel =
        (List.zip (List.range' t m 4)
            ((List.range' j m).map (chosenPrompt choice qs))).flatMap deliverTick ++
          [PAct.cancelledP] := by
  intro m
  induction m with
  | zero =>
    intro fuel t j h
    match fuel, h with
    | fuel + 1, _ =>
      simp [commLoop]
  | succ m ih =>
    intro fuel t j h
    match fuel, h with
    | fuel + 1, h =>
      have hne : ¬ (some (j + (m + 1)) = some j) := by
        simp only [Option.some.injEq]
        omega
      have hj : j + (m + 1) = (j + 1) + m := by omega
      simp only [commLoop, hne, if_false, reduceCtorEq, if_neg, ite_false]
      rw [hj, ih fuel (t + 4) (j + 1) (by omega)]
      rw [List.range'_succ, List.range'_succ, List.map_cons, List.zip_cons_cons]
      simp [deliverTick]

/-- Prompt delivery times of the no-fault loop: `t, t + 4, t + 8, …`. -/
lemma promptTimesOf_commLoop_nofault (choice : Nat → Nat) (qs : List String) :
    ∀ fuel t k, promptTimesOf (commLoop (fun _ => false) choice qs none t k fuel) =
      List.range' t fuel 4 := by
  intro fuel
  induction fuel with
  | zero => intro t k; rfl
  | succ m ih =>
    intro t k
    rw [List.range'_succ]
    simp only [commLoop, if_false, reduceCtorEq, if_neg, promptTimesOf,
      List.filterMap_cons]
    simp only [promptTimesOf] at ih
    rw [ih]

/-- A stride-4 `range'` is strictly increasing. -/
lemma pairwise_lt_range'_four :
    ∀ n s : Nat, List.Pairwise (· < ·) (List.range' s n 4) := by
  intro n
  induction n with
  | zero => intro s; simp
  | succ m ih =>
    intro s
    rw [List.range'_succ]
    refine List.Pairwise.cons ?_ (ih (s + 4))
    intro b hb
    rw [List.mem_range'] at hb
    obtain ⟨i, _, rfl⟩ := hb
    omega

/-- Each randomly chosen prompt belongs to the configured prompt set. -/
lemma chosenPrompt_mem_questions (choice : Nat → Nat) (style level : String)
    (k : Nat) :
    chosenPrompt choice (questions style level) k ∈ questions style level := by
  unfold chosenPrompt questions
  by_cases hs : style = "roasting" <;>
    · simp only [hs, if_true, if_false, List.length_cons, List.length_nil]
      have hm : choice k % 2 = 0 ∨ choice k % 2 = 1 := by omega
      rcases hm with h | h <;> simp [h, List.getD]

/-- C3 counterexample: a fault in the one-time opening prompt call (call `0`,
which in `run_commentary` sits outside the `try`) terminates the commentary
task with no error log, no backoff and no further deliveries — the claim as
stated is false for the opening prompt. -/
theorem C3_counterexample_opening_fault :
    (run_commentary (fun k => k == 0) (fun _ => 0) (questions "roasting" "beginner")
        (opening_prompt "Green Bay Packers" "Chicago Bears") none 5).raised = true ∧
    countAct PAct.errlogP
      (run_commentary (fun k => k == 0) (fun _ => 0) (questions "roasting" "beginner")
        (opening_prompt "Green Bay Packers" "Chicago Bears") none 5).trace = 0 ∧
    countAct (PAct.sleepP 2)
      (run_commentary (fun k => k == 0) (fun _ => 0) (questions "roasting" "beginner")
        (opening_prompt "Green Bay Packers" "Chicago Bears") none 5).trace = 0 ∧
    deliversOf
      (run_commentary (fun k => k == 0) (fun _ => 0) (questions "roasting" "beginner")
        (opening_prompt "Green Bay Packers" "Chicago Bears") none 5).trace = [] :=
  ⟨rfl, rfl, rfl, rfl⟩

/-- C3 (amended): every prompt-delivery call made inside the Periodic
Strategy's commentary loop that raises is logged and followed by the fixed 2 s
backoff, and the loop continues, retrying on its next scheduled tick (every
tick still attempts its own prompt); no loop delivery fault terminates the
commentary task.  The one-time opening prompt is not so protected — a fault
there terminates the task (see the counterexample). -/
theorem C3_loop_fault_recovery (fail : Nat → Bool) (choice : Nat → Nat)
    (qs : List String) (op : String) (fuel : Nat) (h0 : fail 0 = false) :
    (run_commentary fail choice qs op none fuel).raised = false ∧
    loopAttemptsOf (run_commentary fail choice qs op none fuel).trace =
      (List.range' 0 fuel).map (chosenPrompt choice qs) ∧
    countAct PAct.errlogP (run_commentary fail choice qs op none fuel).trace =
      (List.range' 1 fuel).countP fail ∧
    countAct (PAct.sleepP 2) (run_commentary fail choice qs op none fuel).trace =
      (List.range' 1 fuel).countP fail := by
  have hrc : run_commentary fail choice qs op none fuel =
      { trace := PAct.sleepP 3 :: PAct.opening 3 op :: PAct.sleepP 5 ::
          commLoop fail choice qs none 8 0 fuel,
        raised := false } := by
    simp [run_commentary, h0]
  rw [hrc]
  refine ⟨rfl, ?_, ?_, ?_⟩
  · simp only [loopAttemptsOf, List.filterMap_cons]
    exact loopAttemptsOf_commLoop fail choice qs fuel 8 0
  · simp only [countAct, List.countP_cons]
    have := countAct_errlog_commLoop fail choice qs fuel 8 0
    simp only [countAct] at this
    simp [this]
  · simp only [countAct, List.countP_cons]
    have := countAct_backoff_commLoop fail choice qs fuel 8 0
    simp only [countAct] at this
    simp [this]

/-- C3 witness: a fault at the first loop tick only is logged, backed off, and
the loop attempts both of its ticks. -/
theorem C3_loop_fault_recovery_witness :
    (fun k : Nat => k == 1) 0 = false ∧
    ((run_commentary (fun k => k == 1) (fun _ => 0) ["p", "q"] "o" none 2).raised = false ∧
     loopAttemptsOf (run_commentary (fun k => k == 1) (fun _ => 0) ["p", "q"] "o" none 2).trace =
       (List.range' 0 2).map (chosenPrompt (fun _ => 0) ["p", "q"]) ∧
     countAct PAct.errlogP
       (run_commentary (fun k => k == 1) (fun _ => 0) ["p", "q"] "o" none 2).trace =
       (List.range' 1 2).countP (fun k => k == 1) ∧
     countAct (PAct.sleepP 2)
       (run_commentary (fun k => k == 1) (fun _ => 0) ["p", "q"] "o" none 2).trace =
       (List.range' 1 2).countP (fun k => k == 1)) :=
  ⟨rfl, C3_loop_fault_recovery (fun k => k == 1) (fun _ => 0) ["p", "q"] "o" 2 rfl⟩

/-- C7: the Periodic Strategy sleeps the 3 s startup delay, delivers the
opening at `t = 3`, sleeps the 5 s settle delay, then loops delivering one
prompt from the configured set followed by the fixed 4 s interval — prompts at
`t = 3, 8, 12, 16, …`, strictly time-ordered, each loop prompt drawn from the
configured prompt set; cancellation at any loop tick exits the loop cleanly at
that boundary. -/
theorem C7_periodic_timing (style level team1 team2 : String)
    (choice : Nat → Nat) (n : Nat) :
    (run_commentary (fun _ => false) choice (questions style level)
        (opening_prompt team1 team2) none n).raised = false ∧
    openingsOf (run_commentary (fun _ => false) choice (questions style level)
        (opening_prompt team1 team2) none n).trace =
      [(3, opening_prompt team1 team2)] ∧
    deliversOf (run_commentary (fun _ => false) choice (questions style level)
        (opening_prompt team1 team2) none n).trace =
      List.zip (List.range' 8 n 4)
        ((List.range' 0 n).map (chosenPrompt choice (questions style level))) ∧
    (∀ p ∈ deliversOf (run_commentary (fun _ => false) choice (questions style level)
        (opening_prompt team1 team2) none n).trace,
      p.2 ∈ questions style level) ∧
    List.Pairwise (· < ·)
      (promptTimesOf (run_commentary (fun _ => false) choice (questions style level)
        (opening_prompt team1 team2) none n).trace) ∧
    (∀ k, k < n →
      (run_commentary (fun _ => false) choice (questions style level)
          (opening_prompt team1 team2) (some k) n).raised = false ∧
      deliversOf (run_commentary (fun _ => false) choice (questions style level)
          (opening_prompt team1 team2) (some k) n).trace =
        List.zip (List.range' 8 k 4)
          ((List.range' 0 k).map (chosenPrompt choice (questions style level))) ∧
      (run_commentary (fun _ => false) choice (questions style level)
          (opening_prompt team1 team2) (some k) n).trace.getLast? =
        some PAct.cancelledP) := by
  have hrc : ∀ cancelAt, run_commentary (fun _ => false) choice (questions style level)
      (opening_prompt team1 team2) cancelAt n =
      { trace := PAct.sleepP 3 :: PAct.opening 3 (opening_prompt team1 team2) ::
          PAct.sleepP 5 ::
          commLoop (fun _ => false) choice (questions style level) cancelAt 8 0 n,
        raised := false } := by
    intro cancelAt
    simp [run_commentary]
  refine ⟨?_, ?_, ?_, ?_, ?_, ?_⟩
  · rw [hrc]
  · rw [hrc]
    simp only [openingsOf, List.filterMap_cons]
    have hop : ∀ tr, List.filterMap
        (fun a => match a with
          | PAct.opening t s => some (t, s)
          | _ => none) tr = openingsOf tr := fun _ => rfl
    rw [hop]
    have hnone : openingsOf (commLoop (fun _ => false) choice (questions style level)
        none 8 0 n) = [] := by
      have : ∀ fuel t k, openingsOf (commLoop (fun _ => false) choice
          (questions style level) none t k fuel) = [] := by
        intro fuel
        induction fuel with
        | zero => intro t k; rfl
        | succ m ih =>
          intro t k
          simp only [commLoop, if_false, reduceCtorEq, if_neg, openingsOf,
            List.filterMap_cons]
          exact ih (t + 4) (k + 1)
      exact this n 8 0
    rw [hnone]
  · rw [hrc]
    simp only [deliversOf, List.filterMap_cons]
    exact deliversOf_commLoop_nofault choice (questions style level) n 8 0
  · intro p hp
    rw [hrc] at hp
    simp only [deliversOf, List.filterMap_cons] at hp
    have := deliversOf_commLoop_nofault choice (questions style level) n 8 0
    simp only [deliversOf] at this
    rw [this] at hp
    have hsnd := List.of_mem_zip hp
    obtain ⟨-, h2⟩ := hsnd
    rw [List.mem_map] at h2
    obtain ⟨j, -, hj⟩ := h2
    rw [← hj]
    exact chosenPrompt_mem_questions choice style level j
  · rw [hrc]
    simp only [promptTimesOf, List.filterMap_cons]
    have := promptTimesOf_commLoop_nofault choice (questions style level) n 8 0
    simp only [promptTimesOf] at this
    rw [this]
    refine List.Pairwise.cons ?_ (pairwise_lt_range'_four n 8)
    intro b hb
    rw [List.mem_range'] at hb
    obtain ⟨i, _, rfl⟩ := hb
    omega
  · intro k hk
    rw [hrc]
    have hcl := commLoop_cancel choice (questions style level) k n 8 0 hk
    rw [Nat.zero_add] at hcl
    refine ⟨rfl, ?_, ?_⟩
    · simp only [deliversOf, List.filterMap_cons, hcl]
      have hflat : ∀ m t j, deliversOf
          ((List.zip (List.range' t m 4)
            ((List.range' j m).map (chosenPrompt choice (questions style level)))).flatMap
              deliverTick ++ [PAct.cancelledP]) =
          List.zip (List.range' t m 4)
            ((List.range' j m).map (chosenPrompt choice (questions style level))) := by
        intro m
        induction m with
        | zero => intro t j; rfl
        | succ m ih =>
          intro t j
          rw [List.range'_succ, List.range'_succ, List.map_cons, List.zip_cons_cons]
          simp only [List.flatMap_cons, deliverTick, List.cons_append,
            List.append_assoc, deliversOf, List.filterMap_cons]
          have := ih (t + 4) (j + 1)
          simp only [deliversOf] at this
          simp only [List.nil_append]
          rw [this]
      have := hflat k 8 0
      simp only [deliversOf] at this
      exact this
    · rw [hcl]
      show (PAct.sleepP 3 :: PAct.opening 3 (opening_prompt team1 team2) ::
        PAct.sleepP 5 :: ((List.zip (List.range' 8 k 4)
          ((List.range' 0 k).map (chosenPrompt choice (questions style level)))).flatMap
            deliverTick ++ [PAct.cancelledP])).getLast? = some PAct.cancelledP
      rw [← List.cons_append, ← List.cons_append, ← List.cons_append,
        List.getLast?_concat]

/-- C7 witness: instantiation with one loop tick and cancellation at the
first tick. -/
theorem C7_periodic_timing_witness :
    (run_commentary (fun _ => false) (fun _ => 0) (questions "roasting" "beginner")
        (opening_prompt "A" "B") none 1).raised = false ∧
    openingsOf (run_commentary (fun _ => false) (fun _ => 0)
        (questions "roasting" "beginner") (opening_prompt "A" "B") none 1).trace =
      [(3, opening_prompt "A" "B")] ∧
    0 < 1 ∧
    (run_commentary (fun _ => false) (fun _ => 0) (questions "roasting" "beginner")
        (opening_prompt "A" "B") (some 0) 1).trace.getLast? =
      some PAct.cancelledP :=
  ⟨(C7_periodic_timing "roasting" "beginner" "A" "B" (fun _ => 0) 1).1,
   (C7_periodic_timing "roasting" "beginner" "A" "B" (fun _ => 0) 1).2.1,
   by decide,
   ((C7_periodic_timing "roasting" "beginner" "A" "B" (fun _ => 0) 1).2.2.2.2.2 0
     (by decide)).2.2⟩

/-! ## Feeder trace lemmas -/

/-- Number of occurrences of one feeder action in a trace. -/
def countF (a : FAct) : List FAct → Nat
  | [] => 0
  | x :: tr => (if x = a then 1 else 0) + countF a tr

/-- Does a set stop flag get observed anywhere in the trace? -/
def hasTrue : List FAct → Bool
  | [] => false
  | x :: tr => if x = FAct.check true then true else hasTrue tr

lemma countF_append (a : FAct) : ∀ l1 l2 : List FAct,
    countF a (l1 ++ l2) = countF a l1 + countF a l2 := by
  intro l1 l2
  induction l1 with
  | nil => simp [countF]
  | cons x tr ih => simp [countF, ih]; omega

lemma countF_eq_zero_of_not_mem {a : FAct} : ∀ {tr : List FAct}, a ∉ tr →
    countF a tr = 0 := by
  intro tr
  induction tr with
  | nil => intro _; rfl
  | cons x tr ih =>
    intro h
    rw [List.mem_cons, not_or] at h
    have hx : ¬ x = a := fun he => h.1 he.symm
    simp [countF, hx, ih h.2]

lemma tagReach_append (reach : Nat → Bool) : ∀ (A B : List (List Int)) (sc : Nat),
    tagReach reach sc (A ++ B) =
      tagReach reach sc A ++ tagReach reach (sc + A.length) B := by
  intro A
  induction A with
  | nil => intro B sc; simp [tagReach]
  | cons x A ih =>
    intro B sc
    show (reach sc, x) :: tagReach reach (sc + 1) (A ++ B) =
      (reach sc, x) :: (tagReach reach (sc + 1) A ++
        tagReach reach (sc + (x :: A).length) B)
    rw [ih B (sc + 1)]
    have harith : sc + 1 + A.length = sc + (x :: A).length := by
      simp [List.length_cons]
      omega
    rw [harith]

/-- `emitSegs` attempts every segment exactly once, tagged with the
reachability at its send counter; the trace holds nothing but send attempts. -/
lemma emitSegs_spec (reach : Nat → Bool) : ∀ (segs : List (List Int)) (sc : Nat),
    attemptsOf (emitSegs reach sc segs).1 = tagReach reach sc segs ∧
    (emitSegs reach sc segs).2 = sc + segs.length ∧
    ∀ a ∈ (emitSegs reach sc segs).1, isEmit a = true := by
  intro segs
  induction segs with
  | nil =>
    intro sc
    exact ⟨rfl, by simp [emitSegs], by intro a h; simp [emitSegs] at h⟩
  | cons seg rest ih =>
    intro sc
    obtain ⟨ih1, ih2, ih3⟩ := ih (sc + 1)
    rcases h : emitSegs reach (sc + 1) rest with ⟨acts, sc2⟩
    rw [h] at ih1 ih2 ih3
    simp only at ih1 ih2
    have he : emitSegs reach sc (seg :: rest) =
        ((if reach sc then FAct.chunk seg else FAct.dropped seg) :: acts, sc2) := by
      simp [emitSegs, h]
    rw [he]
    refine ⟨?_, ?_, ?_⟩
    · show attemptsOf ((if reach sc then FAct.chunk seg else FAct.dropped seg) :: acts) =
        (reach sc, seg) :: tagReach reach (sc + 1) rest
      by_cases hr : reach sc <;> simp [hr, attemptsOf, List.filterMap_cons] <;>
        · simp only [attemptsOf] at ih1
          rw [ih1]
    · show sc2 = sc + (seg :: rest).length
      simp only [List.length_cons]
      omega
    · intro a ha
      rw [List.mem_cons] at ha
      rcases ha with ha | ha
      · subst ha
        by_cases hr : reach sc <;> simp [hr, isEmit]
      · exact ih3 a ha

/-- With the stop flag never set, `procFrames` attempts every resampled
segment of the packet's frames in order; its trace holds only send attempts
and clear per-frame checks. -/
lemma procFrames_spec (reach : Nat → Bool) (resample : List Int → List (List Int)) :
    ∀ (fs : List (List Int)) (cc sc : Nat),
      attemptsOf (procFrames (fun _ => false) reach resample cc sc fs).1 =
        tagReach reach sc (packetSegs resample fs) ∧
      (procFrames (fun _ => false) reach resample cc sc fs).2.1 = cc + fs.length ∧
      (procFrames (fun _ => false) reach resample cc sc fs).2.2 =
        sc + (packetSegs resample fs).length ∧
      ∀ a ∈ (procFrames (fun _ => false) reach resample cc sc fs).1,
        isEmit a = true ∨ a = FAct.check false := by
  intro fs
  induction fs with
  | nil =>
    intro cc sc
    refine ⟨rfl, by simp [procFrames], by simp [procFrames, packetSegs], ?_⟩
    intro a h
    simp [procFrames] at h
  | cons f fs ih =>
    intro cc sc
    obtain ⟨e1, e2, e3⟩ := emitSegs_spec reach (resample f) sc
    rcases he : emitSegs reach sc (resample f) with ⟨segActs, sc1⟩
    rw [he] at e1 e2 e3
    simp only at e1 e2
    obtain ⟨ih1, ih2, ih3, ih4⟩ := ih (cc + 1) sc1
    rcases hp : procFrames (fun _ => false) reach resample (cc + 1) sc1 fs with
      ⟨rtr, cc2, sc2⟩
    rw [hp] at ih1 ih2 ih3 ih4
    simp only at ih1 ih2 ih3
    have hstep : procFrames (fun _ => false) reach resample cc sc (f :: fs) =
        (FAct.check false :: segActs ++ rtr, cc2, sc2) := by
      simp [procFrames, he, hp]
    rw [hstep]
    have hseg : packetSegs resample (f :: fs) = resample f ++ packetSegs resample fs := by
      simp [packetSegs]
    refine ⟨?_, ?_, ?_, ?_⟩
    · simp only [attemptsOf, List.filterMap_cons, List.filterMap_append]
      simp only [attemptsOf] at e1 ih1
      rw [hseg, tagReach_append, e1, ih1, e2]
    · simp only [List.length_cons]
      omega
    · rw [hseg]
      simp only [List.length_append]
      omega
    · intro a ha
      simp only [List.cons_append, List.mem_cons, List.mem_append] at ha
      rcases ha with ha | ha | ha
      · right; exact ha
      · left; exact e3 a ha
      · exact ih4 a ha

/-- With the stop flag never set and no fault scheduled at or after the
current packet counter, `procPackets` attempts every resampled segment of the
pass in order, ends normally, and its trace holds only send attempts, clear
checks and per-packet yields. -/
lemma procPackets_spec (reach faults : Nat → Bool) (resample : List Int → List (List Int)) :
    ∀ (ps : List (List (List Int))) (cc sc pc : Nat),
      (∀ i, pc ≤ i → faults i = false) →
      attemptsOf (procPackets (fun _ => false) reach faults resample cc sc pc ps).1 =
        tagReach reach sc (passSegs resample ps) ∧
      (procPackets (fun _ => false) reach faults resample cc sc pc ps).2.2.1 =
        sc + (passSegs resample ps).length ∧
      (procPackets (fun _ => false) reach faults resample cc sc pc ps).2.2.2.1 =
        pc + ps.length ∧
      (procPackets (fun _ => false) reach faults resample cc sc pc ps).2.2.2.2 = none ∧
      ∀ a ∈ (procPackets (fun _ => false) reach faults resample cc sc pc ps).1,
        isEmit a = true ∨ a = FAct.check false ∨ a = FAct.yieldSleep := by
  intro ps
  induction ps with
  | nil =>
    intro cc sc pc _
    refine ⟨rfl, by simp [procPackets, passSegs], by simp [procPackets], rfl, ?_⟩
    intro a h
    simp [procPackets] at h
  | cons p ps ih =>
    intro cc sc pc hno
    have hf : faults pc = false := hno pc (Nat.le_refl pc)
    obtain ⟨f1, f2, f3, f4⟩ := procFrames_spec reach resample p (cc + 1) sc
    rcases hfr : procFrames (fun _ => false) reach resample (cc + 1) sc p with
      ⟨ftr, cc1, sc1⟩
    rw [hfr] at f1 f2 f3 f4
    simp only at f1 f2 f3
    have hno' : ∀ i, pc + 1 ≤ i → faults i = false := fun i hi =>
      hno i (Nat.le_of_succ_le hi)
    obtain ⟨ih1, ih2, ih3, ih4, ih5⟩ := ih cc1 sc1 (pc + 1) hno'
    rcases hpk : procPackets (fun _ => false) reach faults resample cc1 sc1 (pc + 1) ps with
      ⟨rtr, cc2, sc2, pc2, out⟩
    rw [hpk] at ih1 ih2 ih3 ih4 ih5
    simp only at ih1 ih2 ih3 ih4
    have hstep : procPackets (fun _ => false) reach faults resample cc sc pc (p :: ps) =
        (FAct.check false :: ftr ++ [FAct.yieldSleep] ++ rtr, cc2, sc2, pc2, out) := by
      simp [procPackets, hf, hfr, hpk]
    rw [hstep]
    have hseg : passSegs resample (p :: ps) =
        packetSegs resample p ++ passSegs resample ps := by
      simp [passSegs]
    refine ⟨?_, ?_, ?_, by simp [ih4], ?_⟩
    · simp only [attemptsOf, List.filterMap_cons, List.filterMap_append,
        List.filterMap_nil, List.nil_append, List.append_nil]
      simp only [attemptsOf] at f1 ih1
      rw [hseg, tagReach_append, f1, ih1, f3]
    · rw [hseg]
      simp only [List.length_append]
      omega
    · simp only [List.length_cons]
      omega
    · intro a ha
      have hmem : a = FAct.check false ∨ a ∈ ftr ∨ a = FAct.yieldSleep ∨ a ∈ rtr := by
        simp only [List.cons_append, List.mem_cons, List.mem_append,
          List.mem_singleton] at ha
        tauto
      rcases hmem with ha | ha | ha | ha
      · right; left; exact ha
      · rcases f4 a ha with h | h
        · left; exact h
        · right; left; exact h
      · right; right; exact ha
      · exact ih5 a ha

/-- The segments attempted by `fuel` iterations of the outer loop, starting
from the current container contents `cur` and looping over `src` afterwards. -/
def loopSegs (resample : List Int → List (List Int)) (src : List (List (List Int))) :
    List (List (List Int)) → Nat → List (List Int)
  | _, 0 => []
  | cur, fuel + 1 => passSegs resample cur ++ loopSegs resample src src fuel

lemma loopSegs_eq_replicate (resample : List Int → List (List Int))
    (src : List (List (List Int))) :
    ∀ n, loopSegs resample src src n =
      (List.replicate n (passSegs resample src)).flatten := by
  intro n
  induction n with
  | zero => rfl
  | succ m ih => simp [loopSegs, ih, List.replicate_succ]

/-- With the stop flag never set and no fault scheduled at or after the
current packet counter, the outer loop attempts exactly the segments of its
successive passes, seeks back to the start once per pass, and never logs,
backs off or closes. -/
lemma feederLoop_spec (reach faults : Nat → Bool) (resample : List Int → List (List Int))
    (src : List (List (List Int))) :
    ∀ (fuel : Nat) (cur : List (List (List Int))) (cc sc pc : Nat),
      (∀ i, pc ≤ i → faults i = false) →
      attemptsOf (feederLoop (fun _ => false) reach faults resample src fuel cc sc pc cur) =
        tagReach reach sc (loopSegs resample src cur fuel) ∧
      countF FAct.seek0
        (feederLoop (fun _ => false) reach faults resample src fuel cc sc pc cur) = fuel ∧
      ∀ a ∈ feederLoop (fun _ => false) reach faults resample src fuel cc sc pc cur,
        isEmit a = true ∨ a = FAct.check false ∨ a = FAct.yieldSleep ∨
          a = FAct.seek0 := by
  intro fuel
  induction fuel with
  | zero =>
    intro cur cc sc pc _
    refine ⟨rfl, rfl, ?_⟩
    intro a h
    simp [feederLoop] at h
  | succ m ih =>
    intro cur cc sc pc hno
    obtain ⟨p1, p2, p3, p4, p5⟩ := procPackets_spec reach faults resample cur (cc + 1) sc pc hno
    rcases hpk : procPackets (fun _ => false) reach faults resample (cc + 1) sc pc cur with
      ⟨ptr, cc1, sc1, pc1, out⟩
    rw [hpk] at p1 p2 p3 p4 p5
    simp only at p1 p2 p3 p4
    subst p4
    have hno1 : ∀ i, pc1 ≤ i → faults i = false := by
      intro i hi
      apply hno
      omega
    obtain ⟨ih1, ih2, ih3⟩ := ih src cc1 sc1 pc1 hno1
    have hstep : feederLoop (fun _ => false) reach faults resample src (m + 1) cc sc pc cur =
        FAct.check false :: ptr ++ [FAct.seek0] ++
          feederLoop (fun _ => false) reach faults resample src m cc1 sc1 pc1 src := by
      simp [feederLoop, hpk]
    rw [hstep]
    have hls : loopSegs resample src cur (m + 1) =
        passSegs resample cur ++ loopSegs resample src src m := rfl
    refine ⟨?_, ?_, ?_⟩
    · simp only [attemptsOf, List.filterMap_cons, List.filterMap_append,
        List.filterMap_nil, List.nil_append, List.append_nil]
      simp only [attemptsOf] at p1 ih1
      rw [hls, tagReach_append, p1, ih1, p2]
    · have hz : countF FAct.seek0 ptr = 0 := by
        apply countF_eq_zero_of_not_mem
        intro hmem
        rcases p5 FAct.seek0 hmem with h | h | h <;> simp [isEmit] at h
      simp only [countF, countF_append, hz, ih2]
      simp only [List.append_eq]
      rw [countF_append, countF_append, hz]
      simp only [countF, ih2]
      simp
      omega
    · intro a ha
      have hmem : a = FAct.check false ∨ a ∈ ptr ∨ a = FAct.seek0 ∨
          a ∈ feederLoop (fun _ => false) reach faults resample src m cc1 sc1 pc1 src := by
        simp only [List.cons_append, List.mem_cons, List.mem_append,
          List.mem_singleton] at ha
        tauto
      rcases hmem with ha | ha | ha | ha
      · right; left; exact ha
      · rcases p5 a ha with h | h | h
        · left; exact h
        · right; left; exact h
        · right; right; left; exact h
      · right; right; right; exact ha
      · exact ih3 a ha

/-- The sent chunks are the send attempts whose reachability tag was true. -/
lemma chunksOf_eq_filter : ∀ tr : List FAct,
    chunksOf tr = (attemptsOf tr).filterMap fun q => if q.1 then some q.2 else none := by
  intro tr
  induction tr with
  | nil => rfl
  | cons a tr ih =>
    simp only [chunksOf, attemptsOf] at ih ⊢
    cases a <;> simp [List.filterMap_cons, ih]

/-- With the sink always reachable, filtering the tagged attempts returns all
segments. -/
lemma tagReach_true_filter : ∀ (segs : List (List Int)) (sc : Nat),
    ((tagReach (fun _ => true) sc segs).filterMap fun q => if q.1 then some q.2 else none) =
      segs := by
  intro segs
  induction segs with
  | nil => intro sc; rfl
  | cons seg rest ih =>
    intro sc
    simp [tagReach, List.filterMap_cons, ih (sc + 1)]

/-- C1: with the sink reachable and no decode faults, the feeder emits, pass
after pass, exactly the resampled segments of the source in playback order:
over `n` outer iterations the concatenated chunks are `n` copies of one full
conversion pass, and the source is seeked back to its start once per pass
(the loop repeats until the stop flag ends it). -/
theorem C1_feeder_reproduces_and_loops (src : List (List (List Int)))
    (resample : List Int → List (List Int)) (n : Nat) :
    chunksOf (stream_to_gemini true src resample (fun _ => false) (fun _ => true)
        (fun _ => false) n) =
      (List.replicate n (passSegs resample src)).flatten ∧
    countF FAct.seek0 (stream_to_gemini true src resample (fun _ => false)
        (fun _ => true) (fun _ => false) n) = n := by
  have hno : ∀ i, (0 : Nat) ≤ i → (fun _ : Nat => false) i = false := fun _ _ => rfl
  cases n with
  | zero => exact ⟨rfl, rfl⟩
  | succ m =>
    obtain ⟨l1, l2, l3⟩ := feederLoop_spec (fun _ => true) (fun _ => false) resample src
      (m + 1) src 0 0 0 hno
    have hst : stream_to_gemini true src resample (fun _ => false) (fun _ => true)
        (fun _ => false) (m + 1) =
        feederLoop (fun _ => false) (fun _ => true) (fun _ => false) resample src
          (m + 1) 0 0 0 src ++ [FAct.close] := rfl
    rw [hst]
    constructor
    · rw [chunksOf_eq_filter]
      simp only [attemptsOf, List.filterMap_append]
      simp only [attemptsOf] at l1
      rw [l1]
      show ((tagReach (fun _ => true) 0 (loopSegs resample src src (m + 1))).filterMap
        fun q => if q.1 then some q.2 else none) ++ _ = _
      rw [tagReach_true_filter, loopSegs_eq_replicate]
      simp
    · rw [countF_append, l2]
      simp [countF]

/-- C9: the stop flag is monotone — it starts `False`, `stop()` is the only
mutator and only sets it `True`, so once stopped an `AudioStreamer` stays
stopped under any further operation sequence, and a `stream_to_gemini` run
whose flag reads set emits no chunk at all (the streamer cannot restart). -/
theorem C9_stop_flag_monotone (p : String) :
    (AudioStreamer.mk0 p).stopped = false ∧
    (∀ (ops : List StreamerOp) (s : AudioStreamer),
      s.stopped = true → (applyOps ops s).stopped = true) ∧
    (∀ ops : List StreamerOp,
      (applyOps (StreamerOp.stopOp :: ops) (AudioStreamer.mk0 p)).stopped = true) ∧
    (∀ (hasAudio : Bool) (src : List (List (List Int)))
        (resample : List Int → List (List Int)) (reach faults : Nat → Bool)
        (fuel : Nat),
      chunksOf (stream_to_gemini hasAudio src resample (fun _ => true) reach faults
        fuel) = []) := by
  have hmono : ∀ (ops : List StreamerOp) (s : AudioStreamer),
      s.stopped = true → (applyOps ops s).stopped = true := by
    intro ops
    induction ops with
    | nil => intro s h; exact h
    | cons op rest ih =>
      intro s _
      cases op
      exact ih s.stop rfl
  refine ⟨rfl, hmono, ?_, ?_⟩
  · intro ops
    exact hmono ops (AudioStreamer.mk0 p).stop rfl
  · intro hasAudio src resample reach faults fuel
    cases hasAudio
    · rfl
    · cases fuel <;> rfl

/-- C9 witness: instantiation at a one-operation sequence. -/
theorem C9_stop_flag_monotone_witness :
    (AudioStreamer.mk0 "video.mp4").stopped = false ∧
    ({ path := "video.mp4", stopped := true } : AudioStreamer).stopped = true ∧
    (applyOps [] ({ path := "video.mp4", stopped := true } : AudioStreamer)).stopped
      = true ∧
    (applyOps [StreamerOp.stopOp] (AudioStreamer.mk0 "video.mp4")).stopped = true ∧
    chunksOf (stream_to_gemini true [[[1]]] (fun f => [f]) (fun _ => true)
      (fun _ => true) (fun _ => false) 3) = [] :=
  ⟨(C9_stop_flag_monotone "video.mp4").1,
   rfl,
   (C9_stop_flag_monotone "video.mp4").2.1 []
     ({ path := "video.mp4", stopped := true } : AudioStreamer) rfl,
   (C9_stop_flag_monotone "video.mp4").2.2.1 [],
   (C9_stop_flag_monotone "video.mp4").2.2.2 true [[[1]]] (fun f => [f])
     (fun _ => true) (fun _ => false) 3⟩

/-- A decode fault scheduled at packet `k = pc + A.length` aborts the pass
right after the packets of `A`: the attempts made are exactly the segments of
`A`, the consumed faulting packet is skipped, and the not-yet-demuxed packets
`B` are what remains. -/
lemma procPackets_fault (reach : Nat → Bool) (resample : List Int → List (List Int))
    (k : Nat) :
    ∀ (A : List (List (List Int))) (p : List (List Int)) (B : List (List (List Int)))
      (cc sc pc : Nat), k = pc + A.length →
      ∃ tr cc',
        procPackets (fun _ => false) reach (fun q => q == k) resample cc sc pc
            (A ++ p :: B) =
          (tr, cc', sc + (passSegs resample A).length, k + 1, some B) ∧
        attemptsOf tr = tagReach reach sc (passSegs resample A) ∧
        ∀ a ∈ tr, isEmit a = true ∨ a = FAct.check false ∨ a = FAct.yieldSleep := by
  intro A
  induction A with
  | nil =>
    intro p B cc sc pc hk
    refine ⟨[FAct.check false], cc + 1, ?_, rfl, ?_⟩
    · have hf : (pc == k) = true := by
        rw [hk]
        simp
      have hstep : procPackets (fun _ => false) reach (fun q => q == k) resample cc sc pc
          (([] : List (List (List Int))) ++ p :: B) =
          ([FAct.check false], cc + 1, sc, pc + 1, some B) := by
        simp [procPackets, hf]
      rw [hstep]
      have h1 : sc + (passSegs resample []).length = sc := by simp [passSegs]
      have h2 : k + 1 = pc + 1 := by
        simp only [List.length_nil] at hk
        omega
      rw [h1, h2]
    · intro a ha
      rw [List.mem_singleton] at ha
      subst ha
      right; left; rfl
  | cons q A ih =>
    intro p B cc sc pc hk
    have hf : (pc == k) = false := by
      apply beq_eq_false_iff_ne.mpr
      simp only [List.length_cons] at hk
      omega
    obtain ⟨f1, f2, f3, f4⟩ := procFrames_spec reach resample q (cc + 1) sc
    rcases hfr : procFrames (fun _ => false) reach resample (cc + 1) sc q with
      ⟨ftr, cc1, sc1⟩
    rw [hfr] at f1 f2 f3 f4
    simp only at f1 f2 f3
    have hk' : k = (pc + 1) + A.length := by
      simp only [List.length_cons] at hk
      omega
    obtain ⟨tr2, cc2, hpk, ha2, hm2⟩ := ih p B cc1 sc1 (pc + 1) hk'
    refine ⟨FAct.check false :: ftr ++ [FAct.yieldSleep] ++ tr2, cc2, ?_, ?_, ?_⟩
    · have hstep : procPackets (fun _ => false) reach (fun q' => q' == k) resample cc sc pc
          ((q :: A) ++ p :: B) =
          (FAct.check false :: ftr ++ [FAct.yieldSleep] ++ tr2, cc2,
            sc1 + (passSegs resample A).length, k + 1, some B) := by
        simp [procPackets, hf, hfr, hpk]
      rw [hstep]
      have hsc : sc1 + (passSegs resample A).length =
          sc + (passSegs resample (q :: A)).length := by
        rw [f3]
        simp only [passSegs, List.flatMap_cons, List.length_append]
        omega
      rw [hsc]
    · have hseg : passSegs resample (q :: A) =
          packetSegs resample q ++ passSegs resample A := by
        simp [passSegs]
      simp only [attemptsOf, List.filterMap_cons, List.filterMap_append,
        List.filterMap_nil, List.nil_append, List.append_nil]
      simp only [attemptsOf] at f1 ha2
      rw [hseg, tagReach_append, f1, ha2, f3]
    · intro a ha
      have hmem : a = FAct.check false ∨ a ∈ ftr ∨ a = FAct.yieldSleep ∨ a ∈ tr2 := by
        simp only [List.cons_append, List.mem_cons, List.mem_append,
          List.mem_singleton] at ha
        tauto
      rcases hmem with ha | ha | ha | ha
      · right; left; exact ha
      · rcases f4 a ha with h | h
        · left; exact h
        · right; left; exact h
      · right; right; exact ha
      · exact hm2 a ha

/-- C5: a single decode fault mid-stream (at the packet after the packets of
`A`) is caught and logged exactly once, followed by exactly one fixed backoff,
and the outer loop resumes: the feeder still emits the segments before the
fault, the rest of the pass after the faulting packet, and `n` further full
passes — the run never loses its final close, i.e. the fault does not
terminate `stream_to_gemini`. -/
theorem C5_single_fault_recovery (A : List (List (List Int))) (p : List (List Int))
    (B : List (List (List Int))) (resample : List Int → List (List Int)) (n : Nat) :
    countF FAct.backoff (stream_to_gemini true (A ++ p :: B) resample (fun _ => false)
      (fun _ => true) (fun q => q == A.length) (n + 2)) = 1 ∧
    countF FAct.errlog (stream_to_gemini true (A ++ p :: B) resample (fun _ => false)
      (fun _ => true) (fun q => q == A.length) (n + 2)) = 1 ∧
    countF FAct.seek0 (stream_to_gemini true (A ++ p :: B) resample (fun _ => false)
      (fun _ => true) (fun q => q == A.length) (n + 2)) = n + 1 ∧
    countF FAct.close (stream_to_gemini true (A ++ p :: B) resample (fun _ => false)
      (fun _ => true) (fun q => q == A.length) (n + 2)) = 1 ∧
    chunksOf (stream_to_gemini true (A ++ p :: B) resample (fun _ => false)
      (fun _ => true) (fun q => q == A.length) (n + 2)) =
      passSegs resample A ++ (passSegs resample B ++
        (List.replicate n (passSegs resample (A ++ p :: B))).flatten) := by
  obtain ⟨tr1, cc1, heq, hat1, hm1⟩ := procPackets_fault (fun _ => true) resample
    A.length A p B 1 0 0 (by omega)
  have hno : ∀ i, A.length + 1 ≤ i → ((fun q => q == A.length) i) = false := by
    intro i hi
    apply beq_eq_false_iff_ne.mpr
    omega
  obtain ⟨l1, l2, l3⟩ := feederLoop_spec (fun _ => true) (fun q => q == A.length)
    resample (A ++ p :: B) (n + 1) B cc1 (0 + (passSegs resample A).length)
    (A.length + 1) hno
  have hloop : feederLoop (fun _ => false) (fun _ => true) (fun q => q == A.length)
      resample (A ++ p :: B) (n + 2) 0 0 0 (A ++ p :: B) =
      FAct.check false :: tr1 ++ [FAct.errlog, FAct.backoff] ++
        feederLoop (fun _ => false) (fun _ => true) (fun q => q == A.length)
          resample (A ++ p :: B) (n + 1) cc1 (0 + (passSegs resample A).length)
          (A.length + 1) B := by
    show feederLoop _ _ _ _ _ (n + 1 + 1) 0 0 0 _ = _
    simp [feederLoop, heq]
  have hrun : stream_to_gemini true (A ++ p :: B) resample (fun _ => false)
      (fun _ => true) (fun q => q == A.length) (n + 2) =
      FAct.check false :: tr1 ++ [FAct.errlog, FAct.backoff] ++
        feederLoop (fun _ => false) (fun _ => true) (fun q => q == A.length)
          resample (A ++ p :: B) (n + 1) cc1 (0 + (passSegs resample A).length)
          (A.length + 1) B ++ [FAct.close] := by
    show feederLoop _ _ _ _ _ (n + 2) 0 0 0 _ ++ [FAct.close] = _
    rw [hloop]
  have zc1 : ∀ a : FAct, isEmit a = false → a ≠ FAct.check false →
      a ≠ FAct.yieldSleep → countF a tr1 = 0 := by
    intro a h1 h2 h3
    apply countF_eq_zero_of_not_mem
    intro hmem
    rcases hm1 a hmem with h | h | h
    · rw [h1] at h; exact Bool.false_ne_true h
    · exact h2 h
    · exact h3 h
  have zc2 : ∀ a : FAct, isEmit a = false → a ≠ FAct.check false →
      a ≠ FAct.yieldSleep → a ≠ FAct.seek0 → countF a
        (feederLoop (fun _ => false) (fun _ => true) (fun q => q == A.length)
          resample (A ++ p :: B) (n + 1) cc1 (0 + (passSegs resample A).length)
          (A.length + 1) B) = 0 := by
    intro a h1 h2 h3 h4
    apply countF_eq_zero_of_not_mem
    intro hmem
    rcases l3 a hmem with h | h | h | h
    · rw [h1] at h; exact Bool.false_ne_true h
    · exact h2 h
    · exact h3 h
    · exact h4 h
  have hcount : ∀ a : FAct,
      countF a (FAct.check false :: tr1 ++ [FAct.errlog, FAct.backoff] ++
        feederLoop (fun _ => false) (fun _ => true) (fun q => q == A.length)
          resample (A ++ p :: B) (n + 1) cc1 (0 + (passSegs resample A).length)
          (A.length + 1) B ++ [FAct.close]) =
      countF a [FAct.check false] + (countF a tr1 +
        (countF a [FAct.errlog, FAct.backoff] +
          (countF a (feederLoop (fun _ => false) (fun _ => true)
            (fun q => q == A.length) resample (A ++ p :: B) (n + 1) cc1
            (0 + (passSegs resample A).length) (A.length + 1) B) +
           countF a [FAct.close]))) := by
    intro a
    have hshape : FAct.check false :: tr1 ++ [FAct.errlog, FAct.backoff] ++
        feederLoop (fun _ => false) (fun _ => true) (fun q => q == A.length)
          resample (A ++ p :: B) (n + 1) cc1 (0 + (passSegs resample A).length)
          (A.length + 1) B ++ [FAct.close] =
        [FAct.check false] ++ (tr1 ++ ([FAct.errlog, FAct.backoff] ++
          (feederLoop (fun _ => false) (fun _ => true) (fun q => q == A.length)
            resample (A ++ p :: B) (n + 1) cc1 (0 + (passSegs resample A).length)
            (A.length + 1) B ++ [FAct.close]))) := by
      simp
    rw [hshape, countF_append, countF_append, countF_append, countF_append]
  rw [hrun]
  refine ⟨?_, ?_, ?_, ?_, ?_⟩
  · rw [hcount, zc1 FAct.backoff rfl (by simp) (by simp),
      zc2 FAct.backoff rfl (by simp) (by simp) (by simp)]
    simp [countF]
  · rw [hcount, zc1 FAct.errlog rfl (by simp) (by simp),
      zc2 FAct.errlog rfl (by simp) (by simp) (by simp)]
    simp [countF]
  · rw [hcount, zc1 FAct.seek0 rfl (by simp) (by simp), l2]
    simp [countF]
  · rw [hcount, zc1 FAct.close rfl (by simp) (by simp),
      zc2 FAct.close rfl (by simp) (by simp) (by simp)]
    simp [countF]
  · rw [chunksOf_eq_filter]
    simp only [attemptsOf, List.filterMap_cons, List.filterMap_append,
      List.filterMap_nil, List.nil_append, List.append_nil]
    simp only [attemptsOf] at hat1 l1
    rw [hat1, l1]
    have htag : tagReach (fun _ => true) 0 (passSegs resample A) ++
        tagReach (fun _ => true) (0 + (passSegs resample A).length)
          (loopSegs resample (A ++ p :: B) B (n + 1)) =
        tagReach (fun _ => true) 0
          (passSegs resample A ++ loopSegs resample (A ++ p :: B) B (n + 1)) := by
      rw [tagReach_append]
    rw [← List.filterMap_append, htag, tagReach_true_filter]
    have hls : loopSegs resample (A ++ p :: B) B (n + 1) =
        passSegs resample B ++
          (List.replicate n (passSegs resample (A ++ p :: B))).flatten := by
      show passSegs resample B ++ loopSegs resample (A ++ p :: B) (A ++ p :: B) n = _
      rw [loopSegs_eq_replicate]
    rw [hls]

/-- C8: drop-without-retry at an unreachable sink.  Audio: every resampled
segment is attempted exactly once, in order, tagged with the reachability
check made for it (`agent.llm and agent.llm.connected`); the chunks actually
sent are exactly the attempts whose check succeeded — unreachable chunks are
dropped, never buffered and never re-attempted.  Prompts: every loop tick
attempts exactly its own prompt once, whether the delivery succeeds or raises,
so a prompt that failed to send is never retried. -/
theorem C8_unreachable_sink_drops (src : List (List (List Int)))
    (resample : List Int → List (List Int)) (reach : Nat → Bool) (n : Nat)
    (fail : Nat → Bool) (choice : Nat → Nat) (qs : List String) (op : String)
    (fuel : Nat) (h0 : fail 0 = false) :
    attemptsOf (stream_to_gemini true src resample (fun _ => false) reach
        (fun _ => false) n) =
      tagReach reach 0 (loopSegs resample src src n) ∧
    chunksOf (stream_to_gemini true src resample (fun _ => false) reach
        (fun _ => false) n) =
      (tagReach reach 0 (loopSegs resample src src n)).filterMap
        (fun q => if q.1 then some q.2 else none) ∧
    (run_commentary fail choice qs op none fuel).raised = false ∧
    loopAttemptsOf (run_commentary fail choice qs op none fuel).trace =
      (List.range' 0 fuel).map (chosenPrompt choice qs) := by
  have hno : ∀ i, (0 : Nat) ≤ i → (fun _ : Nat => false) i = false := fun _ _ => rfl
  have hfeed : attemptsOf (stream_to_gemini true src resample (fun _ => false) reach
      (fun _ => false) n) = tagReach reach 0 (loopSegs resample src src n) := by
    cases n with
    | zero => rfl
    | succ m =>
      obtain ⟨l1, -, -⟩ := feederLoop_spec reach (fun _ => false) resample src
        (m + 1) src 0 0 0 hno
      have hst : stream_to_gemini true src resample (fun _ => false) reach
          (fun _ => false) (m + 1) =
          feederLoop (fun _ => false) reach (fun _ => false) resample src
            (m + 1) 0 0 0 src ++ [FAct.close] := rfl
      rw [hst]
      simp only [attemptsOf, List.filterMap_append]
      simp only [attemptsOf] at l1
      rw [l1]
      simp
  refine ⟨hfeed, ?_, ?_, ?_⟩
  · rw [chunksOf_eq_filter, hfeed]
  · simp [run_commentary, h0]
  · have hrc : run_commentary fail choice qs op none fuel =
        { trace := PAct.sleepP 3 :: PAct.opening 3 op :: PAct.sleepP 5 ::
            commLoop fail choice qs none 8 0 fuel,
          raised := false } := by
      simp [run_commentary, h0]
    rw [hrc]
    simp only [loopAttemptsOf, List.filterMap_cons]
    exact loopAttemptsOf_commLoop fail choice qs fuel 8 0

/-- C8 witness: one pass over a two-frame packet with only the first send
reachable, and a two-tick loop whose first tick faults. -/
theorem C8_unreachable_sink_drops_witness :
    (fun k : Nat => k == 1) 0 = false ∧
    (attemptsOf (stream_to_gemini true [[[1], [2]]] (fun f => [f]) (fun _ => false)
        (fun i => i == 0) (fun _ => false) 1) =
      tagReach (fun i => i == 0) 0
        (loopSegs (fun f => [f]) [[[1], [2]]] [[[1], [2]]] 1) ∧
     chunksOf (stream_to_gemini true [[[1], [2]]] (fun f => [f]) (fun _ => false)
        (fun i => i == 0) (fun _ => false) 1) =
      (tagReach (fun i => i == 0) 0
        (loopSegs (fun f => [f]) [[[1], [2]]] [[[1], [2]]] 1)).filterMap
          (fun q => if q.1 then some q.2 else none) ∧
     (run_commentary (fun k => k == 1) (fun _ => 0) ["p", "q"] "o" none 2).raised =
       false ∧
     loopAttemptsOf
       (run_commentary (fun k => k == 1) (fun _ => 0) ["p", "q"] "o" none 2).trace =
       (List.range' 0 2).map (chosenPrompt (fun _ => 0) ["p", "q"])) :=
  ⟨rfl, C8_unreachable_sink_drops [[[1], [2]]] (fun f => [f]) (fun i => i == 0) 1
    (fun k => k == 1) (fun _ => 0) ["p", "q"] "o" 2 rfl⟩

/-! ## Stop-flag cleanliness -/

lemma noEmit_append (A B : List FAct) :
    noEmit (A ++ B) = (noEmit A && noEmit B) := by
  simp [noEmit, List.all_append]

lemma hasTrue_append : ∀ A B : List FAct,
    hasTrue (A ++ B) = (hasTrue A || hasTrue B) := by
  intro A B
  induction A with
  | nil => simp [hasTrue]
  | cons x A ih =>
    by_cases hx : x = FAct.check true <;> simp [hasTrue, hx, ih]

lemma stopClean_of_hasTrue_false : ∀ tr : List FAct, hasTrue tr = false →
    stopClean tr = true := by
  intro tr
  induction tr with
  | nil => intro _; rfl
  | cons x tr ih =>
    intro h
    by_cases hx : x = FAct.check true
    · simp [hasTrue, hx] at h
    · simp only [hasTrue, if_neg hx] at h
      simp only [stopClean, if_neg hx]
      exact ih h

lemma hasTrue_iff : ∀ tr : List FAct, hasTrue tr = true ↔ FAct.check true ∈ tr := by
  intro tr
  induction tr with
  | nil => simp [hasTrue]
  | cons x tr ih =>
    by_cases hx : x = FAct.check true
    · simp [hasTrue, hx]
    · have hx' : ¬ FAct.check true = x := fun h => hx h.symm
      simp [hasTrue, hx, hx', ih]

lemma noEmit_iff : ∀ tr : List FAct, noEmit tr = true ↔ ∀ a ∈ tr, isEmit a = false := by
  intro tr
  simp [noEmit, List.all_eq_true]

lemma stopClean_append : ∀ A B : List FAct, stopClean A = true →
    (hasTrue A = true → noEmit B = true) → stopClean B = true →
    stopClean (A ++ B) = true := by
  intro A
  induction A with
  | nil =>
    intro B _ _ hB
    simpa using hB
  | cons x A ih =>
    intro B hA hT hB
    by_cases hx : x = FAct.check true
    · have hA' : noEmit A = true := by simpa [stopClean, hx] using hA
      have hBne : noEmit B = true := hT (by simp [hasTrue, hx])
      show stopClean (x :: (A ++ B)) = true
      simp [stopClean, hx, noEmit_append, hA', hBne]
    · have hA' : stopClean A = true := by simpa [stopClean, hx] using hA
      have hT' : hasTrue A = true → noEmit B = true := by
        intro h
        exact hT (by simp [hasTrue, hx, h])
      show stopClean (x :: (A ++ B)) = true
      simp only [stopClean, if_neg hx]
      exact ih B hA' hT' hB

/-- Every action in a `procFrames` trace is a send attempt or a check. -/
lemma procFrames_mem (stop reach : Nat → Bool) (resample : List Int → List (List Int)) :
    ∀ (fs : List (List Int)) (cc sc : Nat),
      ∀ a ∈ (procFrames stop reach resample cc sc fs).1,
        isEmit a = true ∨ a = FAct.check true ∨ a = FAct.check false := by
  intro fs
  induction fs with
  | nil => intro cc sc a ha; simp [procFrames] at ha
  | cons f fs ih =>
    intro cc sc a ha
    by_cases hs : stop cc
    · simp only [procFrames, if_pos hs] at ha
      rw [List.mem_singleton] at ha
      subst ha
      right; left; rfl
    · rcases he : emitSegs reach sc (resample f) with ⟨segActs, sc1⟩
      rcases hp : procFrames stop reach resample (cc + 1) sc1 fs with ⟨rtr, cc2, sc2⟩
      have hstep : procFrames stop reach resample cc sc (f :: fs) =
          (FAct.check false :: segActs ++ rtr, cc2, sc2) := by
        simp [procFrames, hs, he, hp]
      rw [hstep] at ha
      obtain ⟨-, -, e3⟩ := emitSegs_spec reach (resample f) sc
      rw [he] at e3
      have hmem : a = FAct.check false ∨ a ∈ segActs ∨ a ∈ rtr := by
        simp only [List.cons_append, List.mem_cons, List.mem_append] at ha
        tauto
      rcases hmem with h | h | h
      · right; right; exact h
      · left; exact e3 a h
      · exact ih (cc + 1) sc1 a (by rw [hp]; exact h)

/-- Every action in a `procPackets` trace is a send attempt, a check or a
per-packet yield. -/
lemma procPackets_mem (stop reach faults : Nat → Bool)
    (resample : List Int → List (List Int)) :
    ∀ (ps : List (List (List Int))) (cc sc pc : Nat),
      ∀ a ∈ (procPackets stop reach faults resample cc sc pc ps).1,
        isEmit a = true ∨ a = FAct.check true ∨ a = FAct.check false ∨
          a = FAct.yieldSleep := by
  intro ps
  induction ps with
  | nil => intro cc sc pc a ha; simp [procPackets] at ha
  | cons p ps ih =>
    intro cc sc pc a ha
    by_cases hs : stop cc
    · simp only [procPackets, if_pos hs] at ha
      rw [List.mem_singleton] at ha
      subst ha
      right; left; rfl
    · by_cases hf : faults pc
      · simp only [procPackets, if_neg hs, if_pos hf] at ha
        rw [List.mem_singleton] at ha
        subst ha
        right; right; left; rfl
      · rcases hfr : procFrames stop reach resample (cc + 1) sc p with ⟨ftr, cc1, sc1⟩
        rcases hpk : procPackets stop reach faults resample cc1 sc1 (pc + 1) ps with
          ⟨rtr, cc2, sc2, pc2, out⟩
        have hstep : procPackets stop reach faults resample cc sc pc (p :: ps) =
            (FAct.check false :: ftr ++ [FAct.yieldSleep] ++ rtr, cc2, sc2, pc2, out) := by
          simp [procPackets, hs, hf, hfr, hpk]
        rw [hstep] at ha
        have hmem : a = FAct.check false ∨ a ∈ ftr ∨ a = FAct.yieldSleep ∨ a ∈ rtr := by
          simp only [List.cons_append, List.mem_cons, List.mem_append,
            List.mem_singleton] at ha
          tauto
        rcases hmem with h | h | h | h
        · right; right; left; exact h
        · rcases procFrames_mem stop reach resample p (cc + 1) sc a
            (by rw [hfr]; exact h) with h' | h' | h'
          · left; exact h'
          · right; left; exact h'
          · right; right; left; exact h'
        · right; right; right; exact h
        · exact ih cc1 sc1 (pc + 1) a (by rw [hpk]; exact h)

/-- Every action in a `feederLoop` trace is a send attempt, a check, a yield,
a seek, an error log or a backoff — never a close. -/
lemma feederLoop_mem (stop reach faults : Nat → Bool)
    (resample : List Int → List (List Int)) (src : List (List (List Int))) :
    ∀ (fuel : Nat) (cc sc pc : Nat) (cur : List (List (List Int))),
      ∀ a ∈ feederLoop stop reach faults resample src fuel cc sc pc cur,
        isEmit a = true ∨ a = FAct.check true ∨ a = FAct.check false ∨
          a = FAct.yieldSleep ∨ a = FAct.seek0 ∨ a = FAct.errlog ∨
          a = FAct.backoff := by
  intro fuel
  induction fuel with
  | zero => intro cc sc pc cur a ha; simp [feederLoop] at ha
  | succ m ih =>
    intro cc sc pc cur a ha
    by_cases hs : stop cc
    · simp only [feederLoop, if_pos hs] at ha
      rw [List.mem_singleton] at ha
      subst ha
      right; left; rfl
    · rcases hpk : procPackets stop reach faults resample (cc + 1) sc pc cur with
        ⟨ptr, cc1, sc1, pc1, out⟩
      cases out with
      | none =>
        have hstep : feederLoop stop reach faults resample src (m + 1) cc sc pc cur =
            FAct.check false :: ptr ++ [FAct.seek0] ++
              feederLoop stop reach faults resample src m cc1 sc1 pc1 src := by
          simp [feederLoop, hs, hpk]
        rw [hstep] at ha
        have hmem : a = FAct.check false ∨ a ∈ ptr ∨ a = FAct.seek0 ∨
            a ∈ feederLoop stop reach faults resample src m cc1 sc1 pc1 src := by
          simp only [List.cons_append, List.mem_cons, List.mem_append,
            List.mem_singleton] at ha
          tauto
        rcases hmem with h | h | h | h
        · right; right; left; exact h
        · rcases procPackets_mem stop reach faults resample cur (cc + 1) sc pc a
            (by rw [hpk]; exact h) with h' | h' | h' | h'
          · left; exact h'
          · right; left; exact h'
          · right; right; left; exact h'
          · right; right; right; left; exact h'
        · right; right; right; right; left; exact h
        · exact ih cc1 sc1 pc1 src a h
      | some rest =>
        have hstep : feederLoop stop reach faults resample src (m + 1) cc sc pc cur =
            FAct.check false :: ptr ++ [FAct.errlog, FAct.backoff] ++
              feederLoop stop reach faults resample src m cc1 sc1 pc1 rest := by
          simp [feederLoop, hs, hpk]
        rw [hstep] at ha
        have hmem : a = FAct.check false ∨ a ∈ ptr ∨ a = FAct.errlog ∨
            a = FAct.backoff ∨
            a ∈ feederLoop stop reach faults resample src m cc1 sc1 pc1 rest := by
          simp only [List.cons_append, List.mem_cons, List.mem_append,
            List.mem_singleton] at ha
          tauto
        rcases hmem with h | h | h | h | h
        · right; right; left; exact h
        · rcases procPackets_mem stop reach faults resample cur (cc + 1) sc pc a
            (by rw [hpk]; exact h) with h' | h' | h' | h'
          · left; exact h'
          · right; left; exact h'
          · right; right; left; exact h'
          · right; right; right; left; exact h'
        · right; right; right; right; right; left; exact h
        · right; right; right; right; right; right; exact h
        · exact ih cc1 sc1 pc1 rest a h

/-- Once the (monotone) flag reads set, a pass makes no send attempt and the
returned check counter still reads it as set. -/
lemma procPackets_stopped (stop reach faults : Nat → Bool)
    (resample : List Int → List (List Int))
    (hm : ∀ i j, i ≤ j → stop i = true → stop j = true) :
    ∀ (ps : List (List (List Int))) (cc sc pc : Nat), stop cc = true →
      noEmit (procPackets stop reach faults resample cc sc pc ps).1 = true ∧
      stop (procPackets stop reach faults resample cc sc pc ps).2.1 = true := by
  intro ps cc sc pc hs
  cases ps with
  | nil => exact ⟨rfl, hs⟩
  | cons p ps =>
    have hstep : procPackets stop reach faults resample cc sc pc (p :: ps) =
        ([FAct.check true], cc + 1, sc, pc, none) := by
      simp [procPackets, hs]
    rw [hstep]
    exact ⟨by simp [noEmit, isEmit], hm cc (cc + 1) (by omega) hs⟩

/-- Once the flag reads set, the outer loop makes no send attempt. -/
lemma feederLoop_stopped (stop reach faults : Nat → Bool)
    (resample : List Int → List (List Int)) (src : List (List (List Int))) :
    ∀ (fuel cc sc pc : Nat) (cur : List (List (List Int))), stop cc = true →
      noEmit (feederLoop stop reach faults resample src fuel cc sc pc cur) = true := by
  intro fuel cc sc pc cur hs
  cases fuel with
  | zero => rfl
  | succ m =>
    have hstep : feederLoop stop reach faults resample src (m + 1) cc sc pc cur =
        [FAct.check true] := by
      simp [feederLoop, hs]
    rw [hstep]
    simp [noEmit, isEmit]

/-- For a monotone flag schedule, the frame loop's trace is stop-clean, and a
set flag observed inside it is still readable at the returned check counter. -/
lemma procFrames_stopClean (stop reach : Nat → Bool)
    (resample : List Int → List (List Int))
    (hm : ∀ i j, i ≤ j → stop i = true → stop j = true) :
    ∀ (fs : List (List Int)) (cc sc : Nat),
      stopClean (procFrames stop reach resample cc sc fs).1 = true ∧
      (hasTrue (procFrames stop reach resample cc sc fs).1 = true →
        stop (procFrames stop reach resample cc sc fs).2.1 = true) := by
  intro fs
  induction fs with
  | nil =>
    intro cc sc
    refine ⟨rfl, ?_⟩
    intro h
    simp [hasTrue] at h
  | cons f fs ih =>
    intro cc sc
    by_cases hs : stop cc
    · have hstep : procFrames stop reach resample cc sc (f :: fs) =
          ([FAct.check true], cc + 1, sc) := by
        simp [procFrames, hs]
      rw [hstep]
      exact ⟨by simp [stopClean, noEmit], fun _ => hm cc (cc + 1) (by omega) hs⟩
    · rcases he : emitSegs reach sc (resample f) with ⟨segActs, sc1⟩
      rcases hp : procFrames stop reach resample (cc + 1) sc1 fs with ⟨rtr, cc2, sc2⟩
      obtain ⟨ih1, ih2⟩ := ih (cc + 1) sc1
      rw [hp] at ih1 ih2
      simp only at ih1 ih2
      have hstep : procFrames stop reach resample cc sc (f :: fs) =
          (FAct.check false :: segActs ++ rtr, cc2, sc2) := by
        simp [procFrames, hs, he, hp]
      rw [hstep]
      obtain ⟨-, -, e3⟩ := emitSegs_spec reach (resample f) sc
      rw [he] at e3
      have hsegT : hasTrue segActs = false := by
        rw [← Bool.not_eq_true, hasTrue_iff]
        intro hmem
        have := e3 _ hmem
        simp [isEmit] at this
      have hnotct : ¬ FAct.check false = FAct.check true := by simp
      constructor
      · show stopClean (FAct.check false :: (segActs ++ rtr)) = true
        simp only [stopClean, if_neg hnotct]
        exact stopClean_append segActs rtr
          (stopClean_of_hasTrue_false segActs hsegT)
          (fun h => absurd h (by simp [hsegT]))
          ih1
      · intro h
        show stop cc2 = true
        have hrt : hasTrue rtr = true := by
          have h' : hasTrue (FAct.check false :: (segActs ++ rtr)) = true := h
          simp only [hasTrue, if_neg hnotct, hasTrue_append, hsegT,
            Bool.false_or] at h'
          exact h'
        exact ih2 hrt

/-- For a monotone flag schedule, the packet loop's trace is stop-clean, and a
set flag observed inside it is still readable at the returned check counter. -/
lemma procPackets_stopClean (stop reach faults : Nat → Bool)
    (resample : List Int → List (List Int))
    (hm : ∀ i j, i ≤ j → stop i = true → stop j = true) :
    ∀ (ps : List (List (List Int))) (cc sc pc : Nat),
      stopClean (procPackets stop reach faults resample cc sc pc ps).1 = true ∧
      (hasTrue (procPackets stop reach faults resample cc sc pc ps).1 = true →
        stop (procPackets stop reach faults resample cc sc pc ps).2.1 = true) := by
  intro ps
  induction ps with
  | nil =>
    intro cc sc pc
    refine ⟨rfl, ?_⟩
    intro h
    simp [hasTrue] at h
  | cons p ps ih =>
    intro cc sc pc
    by_cases hs : stop cc
    · have hstep : procPackets stop reach faults resample cc sc pc (p :: ps) =
          ([FAct.check true], cc + 1, sc, pc, none) := by
        simp [procPackets, hs]
      rw [hstep]
      exact ⟨by simp [stopClean, noEmit], fun _ => hm cc (cc + 1) (by omega) hs⟩
    · by_cases hf : faults pc
      · have hstep : procPackets stop reach faults resample cc sc pc (p :: ps) =
            ([FAct.check false], cc + 1, sc, pc + 1, some ps) := by
          simp [procPackets, hs, hf]
        rw [hstep]
        refine ⟨by simp [stopClean], ?_⟩
        intro h
        simp [hasTrue] at h
      · rcases hfr : procFrames stop reach resample (cc + 1) sc p with ⟨ftr, cc1, sc1⟩
        rcases hpk : procPackets stop reach faults resample cc1 sc1 (pc + 1) ps with
          ⟨rtr, cc2, sc2, pc2, out⟩
        obtain ⟨pf1, pf2⟩ := procFrames_stopClean stop reach resample hm p (cc + 1) sc
        rw [hfr] at pf1 pf2
        simp only at pf1 pf2
        obtain ⟨ih1, ih2⟩ := ih cc1 sc1 (pc + 1)
        rw [hpk] at ih1 ih2
        simp only at ih1 ih2
        have hstopped : stop cc1 = true → noEmit rtr = true ∧ stop cc2 = true := by
          intro h1
          have := procPackets_stopped stop reach faults resample hm ps cc1 sc1 (pc + 1) h1
          rw [hpk] at this
          simpa using this
        have hstep : procPackets stop reach faults resample cc sc pc (p :: ps) =
            (FAct.check false :: ftr ++ [FAct.yieldSleep] ++ rtr, cc2, sc2, pc2, out) := by
          simp [procPackets, hs, hf, hfr, hpk]
        rw [hstep]
        have hnotct : ¬ FAct.check false = FAct.check true := by simp
        have hnotys : ¬ FAct.yieldSleep = FAct.check true := by simp
        constructor
        · show stopClean (FAct.check false :: ((ftr ++ [FAct.yieldSleep]) ++ rtr)) = true
          simp only [stopClean, if_neg hnotct]
          rw [List.append_assoc]
          apply stopClean_append
          · exact pf1
          · intro h
            have h1 : stop cc1 = true := pf2 h
            have := (hstopped h1).1
            show noEmit (FAct.yieldSleep :: rtr) = true
            simp [noEmit, isEmit] at this ⊢
            exact this
          · show stopClean (FAct.yieldSleep :: rtr) = true
            simp only [stopClean, if_neg hnotys]
            exact ih1
        · intro h
          show stop cc2 = true
          have h' : hasTrue (FAct.check false ::
              ((ftr ++ [FAct.yieldSleep]) ++ rtr)) = true := h
          simp only [hasTrue, if_neg hnotct, hasTrue_append, if_neg hnotys,
            Bool.or_eq_true] at h'
          rcases h' with (h' | h') | h'
          · exact (hstopped (pf2 h')).2
          · simp [hasTrue] at h'
          · exact ih2 h'

/-- For a monotone flag schedule, the whole outer-loop trace is stop-clean:
once any check observes the flag set, no send attempt follows. -/
lemma feederLoop_stopClean (stop reach faults : Nat → Bool)
    (resample : List Int → List (List Int)) (src : List (List (List Int)))
    (hm : ∀ i j, i ≤ j → stop i = true → stop j = true) :
    ∀ (fuel cc sc pc : Nat) (cur : List (List (List Int))),
      stopClean (feederLoop stop reach faults resample src fuel cc sc pc cur) =
        true := by
  intro fuel
  induction fuel with
  | zero => intro cc sc pc cur; rfl
  | succ m ih =>
    intro cc sc pc cur
    by_cases hs : stop cc
    · have hstep : feederLoop stop reach faults resample src (m + 1) cc sc pc cur =
          [FAct.check true] := by
        simp [feederLoop, hs]
      rw [hstep]
      simp [stopClean, noEmit]
    · rcases hpk : procPackets stop reach faults resample (cc + 1) sc pc cur with
        ⟨ptr, cc1, sc1, pc1, out⟩
      obtain ⟨pp1, pp2⟩ := procPackets_stopClean stop reach faults resample hm cur
        (cc + 1) sc pc
      rw [hpk] at pp1 pp2
      simp only at pp1 pp2
      have hnotct : ¬ FAct.check false = FAct.check true := by simp
      cases out with
      | none =>
        have hstep : feederLoop stop reach faults resample src (m + 1) cc sc pc cur =
            FAct.check false :: ptr ++ [FAct.seek0] ++
              feederLoop stop reach faults resample src m cc1 sc1 pc1 src := by
          simp [feederLoop, hs, hpk]
        rw [hstep]
        show stopClean (FAct.check false :: ((ptr ++ [FAct.seek0]) ++
          feederLoop stop reach faults resample src m cc1 sc1 pc1 src)) = true
        simp only [stopClean, if_neg hnotct]
        rw [List.append_assoc]
        apply stopClean_append
        · exact pp1
        · intro h
          have h1 : stop cc1 = true := pp2 h
          have := feederLoop_stopped stop reach faults resample src m cc1 sc1 pc1 src h1
          show noEmit (FAct.seek0 ::
            feederLoop stop reach faults resample src m cc1 sc1 pc1 src) = true
          simp [noEmit, isEmit] at this ⊢
          exact this
        · show stopClean (FAct.seek0 ::
            feederLoop stop reach faults resample src m cc1 sc1 pc1 src) = true
          simp only [stopClean, if_neg (by simp : ¬ FAct.seek0 = FAct.check true)]
          exact ih cc1 sc1 pc1 src
      | some rest =>
        have hstep : feederLoop stop reach faults resample src (m + 1) cc sc pc cur =
            FAct.check false :: ptr ++ [FAct.errlog, FAct.backoff] ++
              feederLoop stop reach faults resample src m cc1 sc1 pc1 rest := by
          simp [feederLoop, hs, hpk]
        rw [hstep]
        show stopClean (FAct.check false :: ((ptr ++ [FAct.errlog, FAct.backoff]) ++
          feederLoop stop reach faults resample src m cc1 sc1 pc1 rest)) = true
        simp only [stopClean, if_neg hnotct]
        rw [List.append_assoc]
        apply stopClean_append
        · exact pp1
        · intro h
          have h1 : stop cc1 = true := pp2 h
          have := feederLoop_stopped stop reach faults resample src m cc1 sc1 pc1 rest h1
          show noEmit (FAct.errlog :: FAct.backoff ::
            feederLoop stop reach faults resample src m cc1 sc1 pc1 rest) = true
          simp [noEmit, isEmit] at this ⊢
          exact this
        · show stopClean (FAct.errlog :: FAct.backoff ::
            feederLoop stop reach faults resample src m cc1 sc1 pc1 rest) = true
          simp only [stopClean,
            if_neg (by simp : ¬ FAct.errlog = FAct.check true),
            if_neg (by simp : ¬ FAct.backoff = FAct.check true)]
          exact ih cc1 sc1 pc1 rest

/-- C6: every terminating `stream_to_gemini` run — no audio track, normal
return, stop, or fault path — closes the container exactly once (the `finally`
close, plus the early close on the no-audio path), and for a monotone stop
flag the trace is stop-clean: from the first check that observes the flag set
(the flag is checked per outer iteration, per packet and per frame), no
further chunk is sent or even attempted. -/
theorem C6_close_once_and_stop_clean (hasAudio : Bool)
    (src : List (List (List Int))) (resample : List Int → List (List Int))
    (stop reach faults : Nat → Bool) (fuel : Nat)
    (hm : ∀ i j, i ≤ j → stop i = true → stop j = true) :
    countF FAct.close
      (stream_to_gemini hasAudio src resample stop reach faults fuel) = 1 ∧
    stopClean (stream_to_gemini hasAudio src resample stop reach faults fuel) =
      true := by
  cases hasAudio with
  | false => exact ⟨rfl, rfl⟩
  | true =>
    have hst : stream_to_gemini true src resample stop reach faults fuel =
        feederLoop stop reach faults resample src fuel 0 0 0 src ++ [FAct.close] :=
      rfl
    rw [hst]
    constructor
    · rw [countF_append]
      have hz : countF FAct.close
          (feederLoop stop reach faults resample src fuel 0 0 0 src) = 0 := by
        apply countF_eq_zero_of_not_mem
        intro hmem
        rcases feederLoop_mem stop reach faults resample src fuel 0 0 0 src
          FAct.close hmem with h | h | h | h | h | h | h <;> simp [isEmit] at h
      rw [hz]
      simp [countF]
    · apply stopClean_append
      · exact feederLoop_stopClean stop reach faults resample src hm fuel 0 0 0 src
      · intro _
        simp [noEmit, isEmit]
      · simp [stopClean]

/-- C6 witness: a streamer whose flag is already set closes once and emits
nothing. -/
theorem C6_close_once_and_stop_clean_witness :
    countF FAct.close (stream_to_gemini true [[[1]]] (fun f => [f]) (fun _ => true)
      (fun _ => true) (fun _ => false) 2) = 1 ∧
    stopClean (stream_to_gemini true [[[1]]] (fun f => [f]) (fun _ => true)
      (fun _ => true) (fun _ => false) 2) = true :=
  C6_close_once_and_stop_clean true [[[1]]] (fun f => [f]) (fun _ => true)
    (fun _ => true) (fun _ => false) 2 (fun _ _ _ h => h)

end FootballCommentator
